import Mathlib

/- Verification development for the configuration-driven formula-synthesis
   engine of module/vpo_from_json.py (class ExcelProcessor).

   Python strings are modelled as `List Char`; Python dicts as association
   lists (insertion-ordered, first-occurrence lookup, in-place overwrite);
   fallible code as `Option`/`Except`.  Recursive helpers that must be
   evaluated on concrete inputs are written with an explicit structural
   fuel argument (always called with enough fuel), so that every
   definition reduces in the kernel. -/

set_option maxHeartbeats 1000000

/-- Characters of a string literal (a Python `str` is modelled as `List Char`). -/
def lit (s : String) : List Char := s.data

/-- Decimal digits of a natural number, as Python `str(n)`. -/
def natStr (n : Nat) : List Char := Nat.toDigits 10 n

/-- Python `str(i)` for an `int`. -/
def intStr : Int → List Char
  | Int.ofNat n => natStr n
  | Int.negSucc n => '-' :: natStr (n + 1)

/-- First-occurrence lookup in an association list: Python `d[k]` / `k in d`
    (dict keys are unique, so first occurrence is the only one). -/
def alistGet {κ α : Type} [DecidableEq κ] : List (κ × α) → κ → Option α
  | [], _ => none
  | (k1, v1) :: rest, k => if k1 = k then some v1 else alistGet rest k

/-- Association-list update, Python `d[k] = v`: overwrites in place keeping
    the key's position, or appends a new key at the end (dict insertion order). -/
def alistSet {κ α : Type} [DecidableEq κ] : List (κ × α) → κ → α → List (κ × α)
  | [], k, v => [(k, v)]
  | (k1, v1) :: rest, k, v =>
      if k1 = k then (k, v) :: rest else (k1, v1) :: alistSet rest k v

theorem alistGet_set_self {κ α : Type} [DecidableEq κ] (l : List (κ × α)) (k : κ) (v : α) :
    alistGet (alistSet l k v) k = some v := by
  induction l with
  | nil => simp [alistGet, alistSet]
  | cons hd tl ih =>
      obtain ⟨k1, v1⟩ := hd
      by_cases h : k1 = k
      · simp [alistGet, alistSet, h]
      · simp [alistGet, alistSet, h, ih]

theorem alistGet_set_ne {κ α : Type} [DecidableEq κ] (l : List (κ × α)) (k k' : κ) (v : α)
    (h : k ≠ k') : alistGet (alistSet l k v) k' = alistGet l k' := by
  induction l with
  | nil => simp [alistGet, alistSet, h]
  | cons hd tl ih =>
      obtain ⟨k1, v1⟩ := hd
      by_cases h1 : k1 = k
      · subst h1
        simp [alistGet, alistSet, h]
      · by_cases h2 : k1 = k'
        · simp [alistGet, alistSet, h1, h2, Ne.symm h]
        · simp [alistGet, alistSet, h1, h2, ih]

theorem alistGet_mem_keys {κ α : Type} [DecidableEq κ] (l : List (κ × α)) (k : κ) (v : α)
    (h : alistGet l k = some v) : k ∈ l.map Prod.fst := by
  induction l with
  | nil => simp [alistGet] at h
  | cons hd tl ih =>
      obtain ⟨k1, v1⟩ := hd
      by_cases h1 : k1 = k
      · simp [h1]
      · simp [alistGet, h1] at h
        simpa using Or.inr (ih h)

/-! ## The configuration tree and `_deep_merge_dicts` (value-level model) -/

/-- A JSON-like configuration tree (the spec's ConfigTree): scalars, lists and
    string-keyed mappings, as loaded by `commentjson`. -/
inductive ConfigTree : Type where
  | int : Int → ConfigTree
  | str : String → ConfigTree
  | list : List ConfigTree → ConfigTree
  | dict : List (String × ConfigTree) → ConfigTree

mutual
def ctSize : ConfigTree → Nat
  | ConfigTree.int _ => 1
  | ConfigTree.str _ => 1
  | ConfigTree.list l => 1 + ctlSize l
  | ConfigTree.dict d => 1 + ctdSize d
def ctlSize : List ConfigTree → Nat
  | [] => 1
  | t :: rest => 1 + ctSize t + ctlSize rest
def ctdSize : List (String × ConfigTree) → Nat
  | [] => 1
  | (_, t) :: rest => 1 + ctSize t + ctdSize rest
end

/-- Fuelled core of `_deep_merge_dicts(base, override)`:
    `result = deepcopy(base)` (a value copy is the identity at this level);
    then, for each `(key, value)` of `override` in order, if `key` is already
    bound in the evolving result and both its current value and `value` are
    dicts, the bound value is replaced by the recursive merge of the two,
    otherwise `result[key] = value` (wholesale replacement, lists included).
    The fuel only bounds the recursion; `ctdSize override` is always enough. -/
def deepMergeGo : Nat → List (String × ConfigTree) → List (String × ConfigTree) →
    List (String × ConfigTree)
  | 0, base, _ => base
  | _ + 1, base, [] => base
  | fuel + 1, base, (k, v) :: rest =>
      let updated :=
        match alistGet base k, v with
        | some (ConfigTree.dict bl), ConfigTree.dict ol =>
            alistSet base k (ConfigTree.dict (deepMergeGo fuel bl ol))
        | _, _ => alistSet base k v
      deepMergeGo fuel updated rest

/-- `_deep_merge_dicts(base, override)` (value level). -/
def deep_merge_dicts (base override : List (String × ConfigTree)) :
    List (String × ConfigTree) :=
  deepMergeGo (ctdSize override) base override

theorem deepMergeGo_fuel_irrel :
    ∀ (f g : Nat) (base o : List (String × ConfigTree)),
      ctdSize o ≤ f → ctdSize o ≤ g → deepMergeGo f base o = deepMergeGo g base o := by
  intro f
  induction f with
  | zero =>
      intro g base o hf _
      cases o with
      | nil => simp [ctdSize] at hf
      | cons hd tl =>
          obtain ⟨k, v⟩ := hd
          simp [ctdSize] at hf
  | succ f ih =>
      intro g base o hf hg
      cases o with
      | nil =>
          cases g with
          | zero => simp [ctdSize] at hg
          | succ g => rfl
      | cons hd tl =>
          obtain ⟨k, v⟩ := hd
          cases g with
          | zero => simp [ctdSize] at hg
          | succ g =>
              have hsz : ctdSize ((k, v) :: tl) = 1 + ctSize v + ctdSize tl := rfl
              have hvpos : 1 ≤ ctSize v := by cases v <;> simp [ctSize]
              have htl_f : ctdSize tl ≤ f := by omega
              have htl_g : ctdSize tl ≤ g := by omega
              cases hbk : alistGet base k with
              | none =>
                  simp only [deepMergeGo, hbk]
                  exact ih g (alistSet base k v) tl htl_f htl_g
              | some bv =>
                  cases bv with
                  | dict bl =>
                      cases v with
                      | dict ol =>
                          have hol : ctSize (ConfigTree.dict ol) = 1 + ctdSize ol := rfl
                          have hol_f : ctdSize ol ≤ f := by omega
                          have hol_g : ctdSize ol ≤ g := by omega
                          simp only [deepMergeGo, hbk]
                          rw [ih g bl ol hol_f hol_g]
                          exact ih g _ tl htl_f htl_g
                      | int i =>
                          simp only [deepMergeGo, hbk]
                          exact ih g _ tl htl_f htl_g
                      | str s =>
                          simp only [deepMergeGo, hbk]
                          exact ih g _ tl htl_f htl_g
                      | list l =>
                          simp only [deepMergeGo, hbk]
                          exact ih g _ tl htl_f htl_g
                  | int i =>
                      simp only [deepMergeGo, hbk]
                      exact ih g _ tl htl_f htl_g
                  | str s =>
                      simp only [deepMergeGo, hbk]
                      exact ih g _ tl htl_f htl_g
                  | list l =>
                      simp only [deepMergeGo, hbk]
                      exact ih g _ tl htl_f htl_g

/-- The value stored at an override key after the merge: the recursive merge
    when the base value at that key and the override value are both mappings,
    the override value itself otherwise. -/
def mergeVal : Option ConfigTree → ConfigTree → ConfigTree
  | some (ConfigTree.dict bl), ConfigTree.dict ol => ConfigTree.dict (deep_merge_dicts bl ol)
  | some (ConfigTree.dict _), v => v
  | some (ConfigTree.int _), v => v
  | some (ConfigTree.str _), v => v
  | some (ConfigTree.list _), v => v
  | none, v => v

theorem deep_merge_dicts_nil (base : List (String × ConfigTree)) :
    deep_merge_dicts base [] = base := rfl

theorem deep_merge_dicts_cons (base : List (String × ConfigTree)) (k : String)
    (v : ConfigTree) (rest : List (String × ConfigTree)) :
    deep_merge_dicts base ((k, v) :: rest) =
      deep_merge_dicts (alistSet base k (mergeVal (alistGet base k) v)) rest := by
  have hsz : ctdSize ((k, v) :: rest) = 1 + ctSize v + ctdSize rest := rfl
  have hvpos : 1 ≤ ctSize v := by cases v <;> simp [ctSize]
  have hrw : ctdSize ((k, v) :: rest) = (ctSize v + ctdSize rest) + 1 := by omega
  unfold deep_merge_dicts
  rw [hrw]
  simp only [deepMergeGo]
  have hfuel : ctdSize rest ≤ ctSize v + ctdSize rest := by omega
  cases hbk : alistGet base k with
  | none =>
      cases v <;>
        · simp only [hbk, mergeVal]
          exact deepMergeGo_fuel_irrel _ _ _ rest hfuel (Nat.le_refl _)
  | some bv =>
      cases bv with
      | dict bl =>
          cases v with
          | dict ol =>
              simp only [hbk, mergeVal]
              have hol : ctSize (ConfigTree.dict ol) = 1 + ctdSize ol := rfl
              have hmg : deepMergeGo (ctSize (ConfigTree.dict ol) + ctdSize rest) bl ol =
                  deep_merge_dicts bl ol :=
                deepMergeGo_fuel_irrel _ _ bl ol (by omega) (Nat.le_refl _)
              rw [hmg]
              exact deepMergeGo_fuel_irrel _ _ _ rest hfuel (Nat.le_refl _)
          | int i =>
              simp only [hbk, mergeVal]
              exact deepMergeGo_fuel_irrel _ _ _ rest hfuel (Nat.le_refl _)
          | str s =>
              simp only [hbk, mergeVal]
              exact deepMergeGo_fuel_irrel _ _ _ rest hfuel (Nat.le_refl _)
          | list l =>
              simp only [hbk, mergeVal]
              exact deepMergeGo_fuel_irrel _ _ _ rest hfuel (Nat.le_refl _)
      | int i =>
          cases v <;>
            · simp only [hbk, mergeVal]
              exact deepMergeGo_fuel_irrel _ _ _ rest hfuel (Nat.le_refl _)
      | str s =>
          cases v <;>
            · simp only [hbk, mergeVal]
              exact deepMergeGo_fuel_irrel _ _ _ rest hfuel (Nat.le_refl _)
      | list l =>
          cases v <;>
            · simp only [hbk, mergeVal]
              exact deepMergeGo_fuel_irrel _ _ _ rest hfuel (Nat.le_refl _)

theorem deep_merge_get_not_mem :
    ∀ (o base : List (String × ConfigTree)) (k : String),
      k ∉ o.map Prod.fst → alistGet (deep_merge_dicts base o) k = alistGet base k := by
  intro o
  induction o with
  | nil => intro base k _; rfl
  | cons hd tl ih =>
      intro base k hk
      obtain ⟨k1, v1⟩ := hd
      simp only [List.map, List.mem_cons] at hk
      push_neg at hk
      rw [deep_merge_dicts_cons]
      rw [ih _ k hk.2]
      exact alistGet_set_ne _ _ _ _ (fun h => hk.1 h.symm)

/-- Key-wise characterisation of `_deep_merge_dicts`: at a key bound by the
    override, the result holds `mergeVal` of the two sides (recursive merge
    only when both are mappings, the override value otherwise); at any other
    key the base binding is unchanged. -/
theorem deep_merge_get :
    ∀ (o base : List (String × ConfigTree)) (k : String),
      (o.map Prod.fst).Nodup →
      alistGet (deep_merge_dicts base o) k =
        match alistGet o k with
        | some v => some (mergeVal (alistGet base k) v)
        | none => alistGet base k := by
  intro o
  induction o with
  | nil => intro base k _; rfl
  | cons hd tl ih =>
      intro base k hnd
      obtain ⟨k1, v1⟩ := hd
      simp only [List.map, List.nodup_cons] at hnd
      rw [deep_merge_dicts_cons]
      by_cases hkk : k1 = k
      · subst hkk
        have hnotin : k1 ∉ tl.map Prod.fst := hnd.1
        rw [deep_merge_get_not_mem tl _ k1 hnotin]
        rw [alistGet_set_self]
        simp [alistGet]
      · rw [ih _ k hnd.2]
        rw [alistGet_set_ne _ _ _ _ hkk]
        simp [alistGet, hkk]

/-! ## Store-level model of `_deep_merge_dicts` (for the purity claim)

    Python values live in a heap of objects addressed by ids; dicts and lists
    hold ids of their elements.  `copy.deepcopy` allocates fresh objects;
    `result[key] = ...` mutates the (freshly copied) dict object in place.
    This model makes the mutation behaviour of `_deep_merge_dicts` explicit,
    so that non-mutation of its inputs is a provable statement. -/

/-- A Python runtime object: a scalar, a list of object ids, or a dict
    mapping string keys to object ids. -/
inductive HObj : Type where
  | scalar : Int → HObj
  | arr : List Nat → HObj
  | dict : List (String × Nat) → HObj
deriving DecidableEq

/-- The heap: object `i` is `objs.get? i`; allocation appends. -/
abbrev Heap := List HObj

def hGet (h : Heap) (i : Nat) : Option HObj := h[i]?

def hAlloc (h : Heap) (o : HObj) : Heap × Nat := (h ++ [o], h.length)

def hSet (h : Heap) (i : Nat) (o : HObj) : Heap := h.set i o

/-- `copy.deepcopy` over a list of object ids (depth-first, left to right):
    returns the extended heap and the fresh ids of the copies.  Fuel bounds
    the copied depth+length; on exhaustion the copy fails (`none`), which
    never happens for enough fuel on an acyclic heap. -/
def copyIds : Nat → Heap → List Nat → Option (Heap × List Nat)
  | 0, _, _ => none
  | _ + 1, h, [] => some (h, [])
  | fuel + 1, h, i :: rest =>
      match hGet h i with
      | none => none
      | some (HObj.scalar v) =>
          match copyIds fuel (h ++ [HObj.scalar v]) rest with
          | none => none
          | some (h2, js) => some (h2, h.length :: js)
      | some (HObj.arr l) =>
          match copyIds fuel h l with
          | none => none
          | some (h1, l1) =>
              match copyIds fuel (h1 ++ [HObj.arr l1]) rest with
              | none => none
              | some (h2, js) => some (h2, h1.length :: js)
      | some (HObj.dict d) =>
          match copyIds fuel h (d.map Prod.snd) with
          | none => none
          | some (h1, vs) =>
              match copyIds fuel (h1 ++ [HObj.dict ((d.map Prod.fst).zip vs)]) rest with
              | none => none
              | some (h2, js) => some (h2, h1.length :: js)

/-- `copy.deepcopy` of a single object. -/
def deepcopy1 (fuel : Nat) (h : Heap) (i : Nat) : Option (Heap × Nat) :=
  match copyIds fuel h [i] with
  | some (h1, [j]) => some (h1, j)
  | _ => none

/-- A pending job of the store-level merge: either a full call
    `_deep_merge_dicts(baseId, overrideId)`, or the remaining iterations of
    its `for key, value in override.items()` loop acting on result object
    `rId`. -/
inductive MJob : Type where
  | merge : Nat → Nat → MJob
  | entries : Nat → List (String × Nat) → MJob

/-- Store-level `_deep_merge_dicts`:
    `result = deepcopy(base)`; then for each `(key, value)` of the override
    dict in order: if `key` is bound in `result` and both `result[key]` and
    `value` are dicts, `result[key] = _deep_merge_dicts(result[key], value)`
    (a recursive call followed by an in-place update of the result object),
    otherwise `result[key] = deepcopy(value)`.  Only the result object and
    objects allocated by the call are ever written. -/
def dmergeGo : Nat → Heap → MJob → Option (Heap × Nat)
  | 0, _, _ => none
  | fuel + 1, h, MJob.merge baseId ovId =>
      match deepcopy1 (fuel + 1) h baseId with
      | none => none
      | some (h1, rId) =>
          match hGet h1 ovId with
          | some (HObj.dict es) => dmergeGo fuel h1 (MJob.entries rId es)
          | _ => none
  | _ + 1, h, MJob.entries rId [] => some (h, rId)
  | fuel + 1, h, MJob.entries rId ((k, vId) :: rest) =>
      match hGet h rId with
      | some (HObj.dict rl) =>
          match alistGet rl k with
          | some bSubId =>
              match hGet h bSubId, hGet h vId with
              | some (HObj.dict _), some (HObj.dict _) =>
                  match dmergeGo fuel h (MJob.merge bSubId vId) with
                  | none => none
                  | some (h1, mId) =>
                      match hGet h1 rId with
                      | some (HObj.dict rl1) =>
                          dmergeGo fuel (hSet h1 rId (HObj.dict (alistSet rl1 k mId)))
                            (MJob.entries rId rest)
                      | _ => none
              | _, _ =>
                  match deepcopy1 (fuel + 1) h vId with
                  | none => none
                  | some (h1, cId) =>
                      match hGet h1 rId with
                      | some (HObj.dict rl1) =>
                          dmergeGo fuel (hSet h1 rId (HObj.dict (alistSet rl1 k cId)))
                            (MJob.entries rId rest)
                      | _ => none
          | none =>
              match deepcopy1 (fuel + 1) h vId with
              | none => none
              | some (h1, cId) =>
                  match hGet h1 rId with
                  | some (HObj.dict rl1) =>
                      dmergeGo fuel (hSet h1 rId (HObj.dict (alistSet rl1 k cId)))
                        (MJob.entries rId rest)
                  | _ => none
      | _ => none

/-- Store-level `_deep_merge_dicts(base, override)`. -/
def deep_merge_heap (fuel : Nat) (h : Heap) (baseId ovId : Nat) : Option (Heap × Nat) :=
  dmergeGo fuel h (MJob.merge baseId ovId)

/-- `h2` extends `h`: every object id of `h` is unchanged. -/
def HeapExt (h h2 : Heap) : Prop :=
  h.length ≤ h2.length ∧ ∀ n, n < h.length → hGet h2 n = hGet h n

/-- `h2` extends `h` except possibly at the single id `rId`. -/
def HeapExtEx (rId : Nat) (h h2 : Heap) : Prop :=
  h.length ≤ h2.length ∧ ∀ n, n < h.length → n ≠ rId → hGet h2 n = hGet h n

theorem heapExt_alloc (h : Heap) (o : HObj) : HeapExt h (h ++ [o]) := by
  constructor
  · simp
  · intro n hn
    simp only [hGet]
    exact List.getElem?_append_left hn

theorem heapExt_trans {h1 h2 h3 : Heap} (a : HeapExt h1 h2) (b : HeapExt h2 h3) :
    HeapExt h1 h3 := by
  refine ⟨Nat.le_trans a.1 b.1, fun n hn => ?_⟩
  rw [b.2 n (Nat.lt_of_lt_of_le hn a.1), a.2 n hn]

theorem copyIds_frame :
    ∀ (fuel : Nat) (h : Heap) (ids : List Nat) (h2 : Heap) (js : List Nat),
      copyIds fuel h ids = some (h2, js) →
      HeapExt h h2 ∧ ∀ j ∈ js, h.length ≤ j := by
  intro fuel
  induction fuel with
  | zero => intro h ids h2 js hc; simp [copyIds] at hc
  | succ fuel ih =>
      intro h ids h2 js hc
      cases ids with
      | nil =>
          simp only [copyIds, Option.some.injEq, Prod.mk.injEq] at hc
          obtain ⟨hh, hjs⟩ := hc
          subst hh; subst hjs
          exact ⟨⟨Nat.le_refl _, fun n _ => rfl⟩, by simp⟩
      | cons i rest =>
          cases hgi : hGet h i with
          | none => simp [copyIds, hgi] at hc
          | some o =>
              cases o with
              | scalar v =>
                  simp only [copyIds, hgi] at hc
                  cases hrest : copyIds fuel (h ++ [HObj.scalar v]) rest with
                  | none => simp [hrest] at hc
                  | some p =>
                      obtain ⟨h2x, js2⟩ := p
                      simp only [hrest] at hc
                      simp only [Option.some.injEq, Prod.mk.injEq] at hc
                      obtain ⟨hh, hjs⟩ := hc
                      subst hh; subst hjs
                      obtain ⟨hext, hfresh⟩ := ih _ _ _ _ hrest
                      refine ⟨heapExt_trans (heapExt_alloc h _) hext, ?_⟩
                      intro j hj
                      rw [List.mem_cons] at hj
                      rcases hj with rfl | hj
                      · omega
                      · have := hfresh j hj
                        simp at this
                        omega
              | arr l =>
                  simp only [copyIds, hgi] at hc
                  cases hl : copyIds fuel h l with
                  | none => rw [hl] at hc; simp at hc
                  | some p1 =>
                      obtain ⟨h1, l1⟩ := p1
                      simp only [hl] at hc
                      cases hrest : copyIds fuel (h1 ++ [HObj.arr l1]) rest with
                      | none => simp [hrest] at hc
                      | some p =>
                          obtain ⟨h2x, js2⟩ := p
                          simp only [hrest] at hc
                          simp only [Option.some.injEq, Prod.mk.injEq] at hc
                          obtain ⟨hh, hjs⟩ := hc
                          subst hh; subst hjs
                          obtain ⟨hext1, _⟩ := ih _ _ _ _ hl
                          obtain ⟨hext2, hfresh2⟩ := ih _ _ _ _ hrest
                          refine ⟨heapExt_trans hext1
                            (heapExt_trans (heapExt_alloc h1 _) hext2), ?_⟩
                          intro j hj
                          rw [List.mem_cons] at hj
                          rcases hj with rfl | hj
                          · have := hext1.1
                            omega
                          · have h3 := hfresh2 j hj
                            have h4 := hext1.1
                            simp at h3
                            omega
              | dict d =>
                  simp only [copyIds, hgi] at hc
                  cases hl : copyIds fuel h (d.map Prod.snd) with
                  | none => rw [hl] at hc; simp at hc
                  | some p1 =>
                      obtain ⟨h1, vs⟩ := p1
                      simp only [hl] at hc
                      cases hrest : copyIds fuel
                          (h1 ++ [HObj.dict ((d.map Prod.fst).zip vs)]) rest with
                      | none => simp [hrest] at hc
                      | some p =>
                          obtain ⟨h2x, js2⟩ := p
                          simp only [hrest] at hc
                          simp only [Option.some.injEq, Prod.mk.injEq] at hc
                          obtain ⟨hh, hjs⟩ := hc
                          subst hh; subst hjs
                          obtain ⟨hext1, _⟩ := ih _ _ _ _ hl
                          obtain ⟨hext2, hfresh2⟩ := ih _ _ _ _ hrest
                          refine ⟨heapExt_trans hext1
                            (heapExt_trans (heapExt_alloc h1 _) hext2), ?_⟩
                          intro j hj
                          rw [List.mem_cons] at hj
                          rcases hj with rfl | hj
                          · have := hext1.1
                            omega
                          · have h3 := hfresh2 j hj
                            have h4 := hext1.1
                            simp at h3
                            omega

theorem deepcopy1_frame (fuel : Nat) (h : Heap) (i : Nat) (h2 : Heap) (j : Nat)
    (hc : deepcopy1 fuel h i = some (h2, j)) :
    HeapExt h h2 ∧ h.length ≤ j := by
  unfold deepcopy1 at hc
  cases hcall : copyIds fuel h [i] with
  | none => simp [hcall] at hc
  | some p =>
      obtain ⟨h1, js⟩ := p
      cases js with
      | nil => simp [hcall] at hc
      | cons j0 js' =>
          cases js' with
          | nil =>
              simp only [hcall, Option.some.injEq, Prod.mk.injEq] at hc
              obtain ⟨hh, hj⟩ := hc
              subst hh; subst hj
              obtain ⟨hext, hfresh⟩ := copyIds_frame _ _ _ _ _ hcall
              exact ⟨hext, hfresh _ (by simp)⟩
          | cons _ _ => simp [hcall] at hc

theorem heapExtEx_of_set {rId : Nat} (h : Heap) (o : HObj) :
    HeapExtEx rId h (hSet h rId o) := by
  refine ⟨by simp [hSet], fun n hn hne => ?_⟩
  simp only [hGet, hSet]
  exact List.getElem?_set_ne (fun hx => hne hx.symm)

theorem dmergeGo_frame :
    ∀ (fuel : Nat) (h : Heap) (j : MJob) (h2 : Heap) (r : Nat),
      dmergeGo fuel h j = some (h2, r) →
      match j with
      | MJob.merge _ _ => HeapExt h h2 ∧ h.length ≤ r
      | MJob.entries rId _ => HeapExtEx rId h h2 ∧ r = rId := by
  intro fuel
  induction fuel with
  | zero => intro h j h2 r hc; simp [dmergeGo] at hc
  | succ fuel ih =>
      intro h j h2 r hc
      cases j with
      | merge baseId ovId =>
          simp only [dmergeGo] at hc
          cases hcp : deepcopy1 (fuel + 1) h baseId with
          | none => simp [hcp] at hc
          | some p =>
              obtain ⟨h1, rId⟩ := p
              simp only [hcp] at hc
              obtain ⟨hext1, hfresh1⟩ := deepcopy1_frame _ _ _ _ _ hcp
              cases hgo : hGet h1 ovId with
              | none => simp [hgo] at hc
              | some o =>
                  cases o with
                  | scalar v => simp [hgo] at hc
                  | arr l => simp [hgo] at hc
                  | dict es =>
                      simp only [hgo] at hc
                      have hrec := ih _ _ _ _ hc
                      simp only at hrec
                      obtain ⟨⟨hlen, hpres⟩, hr⟩ := hrec
                      refine ⟨⟨Nat.le_trans hext1.1 hlen, fun n hn => ?_⟩, ?_⟩
                      · have hn1 : n < h1.length := Nat.lt_of_lt_of_le hn hext1.1
                        have hne : n ≠ rId := by omega
                        rw [hpres n hn1 hne, hext1.2 n hn]
                      · rw [hr]
                        exact hfresh1
      | entries rId es =>
          cases es with
          | nil =>
              simp only [dmergeGo, Option.some.injEq, Prod.mk.injEq] at hc
              obtain ⟨hh, hr⟩ := hc
              subst hh; subst hr
              exact ⟨⟨Nat.le_refl _, fun n _ _ => rfl⟩, rfl⟩
          | cons e rest =>
              obtain ⟨k, vId⟩ := e
              simp only [dmergeGo] at hc
              cases hgr : hGet h rId with
              | none => simp [hgr] at hc
              | some ro =>
                  cases ro with
                  | scalar v => simp [hgr] at hc
                  | arr l => simp [hgr] at hc
                  | dict rl =>
                      simp only [hgr] at hc
                      have hcont : ∀ (hmid : Heap) (newId : Nat),
                          HeapExt h hmid → h.length ≤ hmid.length →
                          ∀ rl1, hGet hmid rId = some (HObj.dict rl1) →
                          dmergeGo fuel (hSet hmid rId (HObj.dict (alistSet rl1 k newId)))
                            (MJob.entries rId rest) = some (h2, r) →
                          HeapExtEx rId h h2 ∧ r = rId := by
                        intro hmid newId hextm _hlenm rl1 _hgrl hrec
                        have hres := ih _ _ _ _ hrec
                        simp only at hres
                        obtain ⟨⟨hlen2, hpres2⟩, hr⟩ := hres
                        refine ⟨⟨?_, fun n hn hne => ?_⟩, hr⟩
                        · have : hmid.length =
                              (hSet hmid rId (HObj.dict (alistSet rl1 k newId))).length := by
                            simp [hSet]
                          omega
                        · have hn1 : n < (hSet hmid rId
                              (HObj.dict (alistSet rl1 k newId))).length := by
                            simp [hSet]
                            exact Nat.lt_of_lt_of_le hn hextm.1
                          rw [hpres2 n hn1 hne]
                          have : hGet (hSet hmid rId (HObj.dict (alistSet rl1 k newId))) n =
                              hGet hmid n := (heapExtEx_of_set hmid _).2 n
                            (Nat.lt_of_lt_of_le hn hextm.1) hne
                          rw [this, hextm.2 n hn]
                      cases hak : alistGet rl k with
                      | some bSubId =>
                          simp only [hak] at hc
                          cases hgb : hGet h bSubId with
                          | none =>
                              simp only [hgb] at hc
                              cases hcp : deepcopy1 (fuel + 1) h vId with
                              | none => simp [hcp] at hc
                              | some p =>
                                  obtain ⟨h1, cId⟩ := p
                                  simp only [hcp] at hc
                                  obtain ⟨hext1, _⟩ := deepcopy1_frame _ _ _ _ _ hcp
                                  cases hgr1 : hGet h1 rId with
                                  | none => simp [hgr1] at hc
                                  | some o1 =>
                                      cases o1 with
                                      | scalar v => simp [hgr1] at hc
                                      | arr l => simp [hgr1] at hc
                                      | dict rl1 =>
                                          simp only [hgr1] at hc
                                          exact hcont h1 cId hext1 hext1.1 rl1 hgr1 hc
                          | some bo =>
                              cases hgv : hGet h vId with
                              | none =>
                                  simp only [hgb, hgv] at hc
                                  cases bo with
                                  | scalar v =>
                                      cases hcp : deepcopy1 (fuel + 1) h vId with
                                      | none => simp [hcp] at hc
                                      | some p =>
                                          obtain ⟨h1, cId⟩ := p
                                          simp only [hcp] at hc
                                          obtain ⟨hext1, _⟩ := deepcopy1_frame _ _ _ _ _ hcp
                                          cases hgr1 : hGet h1 rId with
                                          | none => simp [hgr1] at hc
                                          | some o1 =>
                                              cases o1 with
                                              | scalar v2 => simp [hgr1] at hc
                                              | arr l2 => simp [hgr1] at hc
                                              | dict rl1 =>
                                                  simp only [hgr1] at hc
                                                  exact hcont h1 cId hext1 hext1.1 rl1 hgr1 hc
                                  | arr l =>
                                      cases hcp : deepcopy1 (fuel + 1) h vId with
                                      | none => simp [hcp] at hc
                                      | some p =>
                                          obtain ⟨h1, cId⟩ := p
                                          simp only [hcp] at hc
                                          obtain ⟨hext1, _⟩ := deepcopy1_frame _ _ _ _ _ hcp
                                          cases hgr1 : hGet h1 rId with
                                          | none => simp [hgr1] at hc
                                          | some o1 =>
                                              cases o1 with
                                              | scalar v2 => simp [hgr1] at hc
                                              | arr l2 => simp [hgr1] at hc
                                              | dict rl1 =>
                                                  simp only [hgr1] at hc
                                                  exact hcont h1 cId hext1 hext1.1 rl1 hgr1 hc
                                  | dict bl =>
                                      cases hcp : deepcopy1 (fuel + 1) h vId with
                                      | none => simp [hcp] at hc
                                      | some p =>
                                          obtain ⟨h1, cId⟩ := p
                                          simp only [hcp] at hc
                                          obtain ⟨hext1, _⟩ := deepcopy1_frame _ _ _ _ _ hcp
                                          cases hgr1 : hGet h1 rId with
                                          | none => simp [hgr1] at hc
                                          | some o1 =>
                                              cases o1 with
                                              | scalar v2 => simp [hgr1] at hc
                                              | arr l2 => simp [hgr1] at hc
                                              | dict rl1 =>
                                                  simp only [hgr1] at hc
                                                  exact hcont h1 cId hext1 hext1.1 rl1 hgr1 hc
                              | some vo =>
                                  cases bo with
                                  | dict bl =>
                                      cases vo with
                                      | dict ol =>
                                          simp only [hgb, hgv] at hc
                                          cases hmg : dmergeGo fuel h
                                              (MJob.merge bSubId vId) with
                                          | none => simp [hmg] at hc
                                          | some p =>
                                              obtain ⟨h1, mId⟩ := p
                                              simp only [hmg] at hc
                                              have hrec1 := ih _ _ _ _ hmg
                                              simp only at hrec1
                                              obtain ⟨hext1, _⟩ := hrec1
                                              cases hgr1 : hGet h1 rId with
                                              | none => simp [hgr1] at hc
                                              | some o1 =>
                                                  cases o1 with
                                                  | scalar v2 => simp [hgr1] at hc
                                                  | arr l2 => simp [hgr1] at hc
                                                  | dict rl1 =>
                                                      simp only [hgr1] at hc
                                                      exact hcont h1 mId hext1 hext1.1 rl1 hgr1 hc
                                      | scalar v2 =>
                                          simp only [hgb, hgv] at hc
                                          cases hcp : deepcopy1 (fuel + 1) h vId with
                                          | none => simp [hcp] at hc
                                          | some p =>
                                              obtain ⟨h1, cId⟩ := p
                                              simp only [hcp] at hc
                                              obtain ⟨hext1, _⟩ :=
                                                deepcopy1_frame _ _ _ _ _ hcp
                                              cases hgr1 : hGet h1 rId with
                                              | none => simp [hgr1] at hc
                                              | some o1 =>
                                                  cases o1 with
                                                  | scalar v3 => simp [hgr1] at hc
                                                  | arr l3 => simp [hgr1] at hc
                                                  | dict rl1 =>
                                                      simp only [hgr1] at hc
                                                      exact hcont h1 cId hext1 hext1.1 rl1 hgr1 hc
                                      | arr l2 =>
                                          simp only [hgb, hgv] at hc
                                          cases hcp : deepcopy1 (fuel + 1) h vId with
                                          | none => simp [hcp] at hc
                                          | some p =>
                                              obtain ⟨h1, cId⟩ := p
                                              simp only [hcp] at hc
                                              obtain ⟨hext1, _⟩ :=
                                                deepcopy1_frame _ _ _ _ _ hcp
                                              cases hgr1 : hGet h1 rId with
                                              | none => simp [hgr1] at hc
                                              | some o1 =>
                                                  cases o1 with
                                                  | scalar v3 => simp [hgr1] at hc
                                                  | arr l3 => simp [hgr1] at hc
                                                  | dict rl1 =>
                                                      simp only [hgr1] at hc
                                                      exact hcont h1 cId hext1 hext1.1 rl1 hgr1 hc
                                  | scalar v2 =>
                                      simp only [hgb, hgv] at hc
                                      cases hcp : deepcopy1 (fuel + 1) h vId with
                                      | none => simp [hcp] at hc
                                      | some p =>
                                          obtain ⟨h1, cId⟩ := p
                                          simp only [hcp] at hc
                                          obtain ⟨hext1, _⟩ := deepcopy1_frame _ _ _ _ _ hcp
                                          cases hgr1 : hGet h1 rId with
                                          | none => simp [hgr1] at hc
                                          | some o1 =>
                                              cases o1 with
                                              | scalar v3 => simp [hgr1] at hc
                                              | arr l3 => simp [hgr1] at hc
                                              | dict rl1 =>
                                                  simp only [hgr1] at hc
                                                  exact hcont h1 cId hext1 hext1.1 rl1 hgr1 hc
                                  | arr l2 =>
                                      simp only [hgb, hgv] at hc
                                      cases hcp : deepcopy1 (fuel + 1) h vId with
                                      | none => simp [hcp] at hc
                                      | some p =>
                                          obtain ⟨h1, cId⟩ := p
                                          simp only [hcp] at hc
                                          obtain ⟨hext1, _⟩ := deepcopy1_frame _ _ _ _ _ hcp
                                          cases hgr1 : hGet h1 rId with
                                          | none => simp [hgr1] at hc
                                          | some o1 =>
                                              cases o1 with
                                              | scalar v3 => simp [hgr1] at hc
                                              | arr l3 => simp [hgr1] at hc
                                              | dict rl1 =>
                                                  simp only [hgr1] at hc
                                                  exact hcont h1 cId hext1 hext1.1 rl1 hgr1 hc
                      | none =>
                          simp only [hak] at hc
                          cases hcp : deepcopy1 (fuel + 1) h vId with
                          | none => simp [hcp] at hc
                          | some p =>
                              obtain ⟨h1, cId⟩ := p
                              simp only [hcp] at hc
                              obtain ⟨hext1, _⟩ := deepcopy1_frame _ _ _ _ _ hcp
                              cases hgr1 : hGet h1 rId with
                              | none => simp [hgr1] at hc
                              | some o1 =>
                                  cases o1 with
                                  | scalar v2 => simp [hgr1] at hc
                                  | arr l2 => simp [hgr1] at hc
                                  | dict rl1 =>
                                      simp only [hgr1] at hc
                                      exact hcont h1 cId hext1 hext1.1 rl1 hgr1 hc

/-! ## Header tokenisation and keyword matching (`_header_matches`) -/

/-- Python `str.lower` restricted to the character classes the matcher
    distinguishes: ASCII letters, Cyrillic А–Я/а–я and Ё/ё.  Characters
    outside these classes are never token characters, lowered or not. -/
def pyLower (c : Char) : Char :=
  if 'A' ≤ c ∧ c ≤ 'Z' then Char.ofNat (c.toNat + 32)
  else if 'А' ≤ c ∧ c ≤ 'Я' then Char.ofNat (c.toNat + 32)
  else if c = 'Ё' then 'ё'
  else c

/-- Python `str.upper` on the same classes (used by `str.title` in tag names). -/
def pyUpper (c : Char) : Char :=
  if 'a' ≤ c ∧ c ≤ 'z' then Char.ofNat (c.toNat - 32)
  else if 'а' ≤ c ∧ c ≤ 'я' then Char.ofNat (c.toNat - 32)
  else if c = 'ё' then 'Ё'
  else c

def pyLowerStr (s : List Char) : List Char := s.map pyLower

/-- Membership in the regex class `[A-Za-zА-Яа-яЁё0-9\x2d]` of
    `_header_matches`: letters, digits and the hyphen. -/
def isTokenChar (c : Char) : Bool :=
  ('A' ≤ c ∧ c ≤ 'Z') ∨ ('a' ≤ c ∧ c ≤ 'z') ∨ ('0' ≤ c ∧ c ≤ '9') ∨
    ('А' ≤ c ∧ c ≤ 'Я') ∨ ('а' ≤ c ∧ c ≤ 'я') ∨ c = 'Ё' ∨ c = 'ё' ∨ c = '-'

/-- Fuelled core of `re.findall(r"[A-Za-zА-Яа-яЁё0-9\x2d]+", s)`: the list of
    maximal runs of token characters.  Fuel `≥ length s` is always enough. -/
def tokenizeGo : Nat → List Char → List (List Char)
  | _, [] => []
  | 0, _ :: _ => []
  | fuel + 1, c :: rest =>
      if isTokenChar c then
        (c :: rest.takeWhile isTokenChar) :: tokenizeGo fuel (rest.dropWhile isTokenChar)
      else tokenizeGo fuel rest

/-- `re.findall(r"[A-Za-zА-Яа-яЁё0-9\x2d]+", s)`. -/
def tokenize (s : List Char) : List (List Char) := tokenizeGo s.length s

/-- `_header_matches(header, keywords)`: every keyword, lower-cased, occurs
    as one whole token of the lower-cased header. -/
def header_matches (header : List Char) (keywords : List (List Char)) : Bool :=
  keywords.all (fun kw => (tokenize (pyLowerStr header)).contains (pyLowerStr kw))

/-! ## `str.replace`-based row rewriting (`_fill_sheet`) -/

/-- Fuelled Python `s.replace(pat, rep)`: replaces every non-overlapping
    occurrence of `pat`, scanning left to right.  Fuel `≥ length s` is
    always enough for the non-empty patterns the code uses. -/
def replaceAllGo (pat rep : List Char) : Nat → List Char → List Char
  | _, [] => []
  | 0, s => s
  | fuel + 1, c :: rest =>
      if pat.isPrefixOf (c :: rest) then
        rep ++ replaceAllGo pat rep fuel ((c :: rest).drop pat.length)
      else c :: replaceAllGo pat rep fuel rest

/-- Python `s.replace(pat, rep)` (for non-empty `pat`). -/
def replaceAll (pat rep s : List Char) : List Char := replaceAllGo pat rep s.length s

/-- Number of pattern occurrences the scan of `replaceAll` replaces. -/
def countOccsGo (pat : List Char) : Nat → List Char → Nat
  | _, [] => 0
  | 0, _ :: _ => 0
  | fuel + 1, c :: rest =>
      if pat.isPrefixOf (c :: rest) then
        1 + countOccsGo pat fuel ((c :: rest).drop pat.length)
      else countOccsGo pat fuel rest

def countOccs (pat s : List Char) : Nat := countOccsGo pat s.length s

/-- The per-row formula rewrite of `_fill_sheet`:
    `base_formula.replace("=" + row_condition, "=" + row_condition[:-1] + str(row))`. -/
def fillRowValue (baseFormula rowCondition : List Char) (row : Nat) : List Char :=
  replaceAll ('=' :: rowCondition) ('=' :: (rowCondition.dropLast ++ natStr row)) baseFormula

/-- Modelled from the spec (§4.4): the row rewrite as the specification words
    it — locate the literal `"=" + lookupValue` marker and rewrite the
    marker's trailing digit sequence (or absence thereof) to the row number. -/
def fillRowSpec (baseFormula rowCondition : List Char) (row : Nat) : List Char :=
  replaceAll ('=' :: rowCondition)
    ('=' :: ((rowCondition.reverse.dropWhile Char.isDigit).reverse ++ natStr row)) baseFormula

theorem replaceAllGo_no_occ (pat rep : List Char) :
    ∀ (fuel : Nat) (s : List Char), s.length ≤ fuel →
      countOccsGo pat fuel s = 0 → replaceAllGo pat rep fuel s = s := by
  intro fuel
  induction fuel with
  | zero =>
      intro s _ _
      cases s <;> rfl
  | succ fuel ih =>
      intro s hlen hcnt
      cases s with
      | nil => rfl
      | cons c rest =>
          by_cases hp : pat.isPrefixOf (c :: rest)
          · simp only [countOccsGo] at hcnt
            rw [if_pos hp] at hcnt
            omega
          · simp only [countOccsGo] at hcnt
            rw [if_neg hp] at hcnt
            simp only [replaceAllGo]
            rw [if_neg hp]
            rw [ih rest (by simp at hlen; omega) hcnt]

theorem replaceAllGo_one_occ (pat rep : List Char) (hpat : pat ≠ []) :
    ∀ (fuel : Nat) (s : List Char), s.length ≤ fuel →
      countOccsGo pat fuel s = 1 →
      ∃ pre post, s = pre ++ pat ++ post ∧
        (∀ r2, replaceAllGo pat r2 fuel s = pre ++ r2 ++ post) := by
  intro fuel
  induction fuel with
  | zero =>
      intro s hlen hcnt
      cases s with
      | nil => simp [countOccsGo] at hcnt
      | cons c rest => simp at hlen
  | succ fuel ih =>
      intro s hlen hcnt
      cases s with
      | nil => simp [countOccsGo] at hcnt
      | cons c rest =>
          by_cases hp : pat.isPrefixOf (c :: rest)
          · obtain ⟨post0, hpost0⟩ := List.isPrefixOf_iff_prefix.mp hp
            simp only [countOccsGo] at hcnt
            rw [if_pos hp] at hcnt
            have hcnt0 : countOccsGo pat fuel ((c :: rest).drop pat.length) = 0 := by omega
            have hdrop : (c :: rest).drop pat.length = post0 := by
              rw [← hpost0]
              simp
            have hplen : pat.length ≥ 1 := by
              cases pat with
              | nil => exact absurd rfl hpat
              | cons _ _ => simp
            refine ⟨[], (c :: rest).drop pat.length, ?_, ?_⟩
            · simp [hdrop, ← hpost0]
            · intro r2
              have hdlen : ((c :: rest).drop pat.length).length ≤ fuel := by
                simp only [List.length_drop, List.length_cons]
                simp only [List.length_cons] at hlen
                omega
              simp only [replaceAllGo]
              rw [if_pos hp, List.nil_append]
              rw [replaceAllGo_no_occ pat r2 fuel _ hdlen hcnt0]
          · simp only [countOccsGo] at hcnt
            rw [if_neg hp] at hcnt
            obtain ⟨pre, post, hs, hrep⟩ := ih rest (by simp at hlen; omega) hcnt
            refine ⟨c :: pre, post, by simp [hs], ?_⟩
            intro r2
            simp only [replaceAllGo]
            rw [if_neg hp]
            rw [hrep r2]
            simp

/-! ## The formula compiler (`_generate_formulas`, `_nan_error_handle_`) -/

/-- Python `s.split(sep)` for a one-character separator: keeps empty pieces,
    always returns at least one piece. -/
def splitOnChar (sep : Char) : List Char → List (List Char)
  | [] => [[]]
  | c :: rest =>
      match splitOnChar sep rest with
      | [] => if c = sep then [[], [c]] else [[c]]
      | h :: t => if c = sep then [] :: h :: t else (c :: h) :: t

/-- Python `int(s)` on a plain digit string (with optional sign); `none`
    models the `ValueError` raised on anything else. -/
def pyNat : List Char → Option Nat
  | [] => none
  | s =>
      if s.all Char.isDigit then
        some (s.foldl (fun acc c => acc * 10 + (c.toNat - 48)) 0)
      else none

def pyInt : List Char → Option Int
  | [] => none
  | '-' :: rest => (pyNat rest).map (fun n => -(n : Int))
  | s => (pyNat s).map (fun n => (n : Int))

/-- A value of one of the two classification-alias tables (Python is
    dynamically typed: codes are ints, sheet names are strings, and a code
    may be a list of codes). -/
inductive AliasVal : Type where
  | int : Int → AliasVal
  | str : String → AliasVal
  | vlist : List AliasVal → AliasVal

/-- How an `AliasVal` prints inside an f-string (`str(v)`).  A nested list
    value never occurs in the claims; one level of nesting is rendered and
    deeper lists appear as an opaque bracket. -/
def renderShallow : AliasVal → List Char
  | AliasVal.int i => intStr i
  | AliasVal.str s => s.data
  | AliasVal.vlist _ => lit "[...]"

def render : AliasVal → List Char
  | AliasVal.int i => intStr i
  | AliasVal.str s => s.data
  | AliasVal.vlist l =>
      lit "[" ++ List.intercalate (lit ", ") (l.map renderShallow) ++ lit "]"

/-- `params["row_num"]` of a handler (the source spells it `looup_array`). -/
structure RowNum : Type where
  looup_array : List Char
  lookup_value : List Char
deriving DecidableEq

/-- `params["columns_num"]` of a handler. -/
structure ColumnsNum : Type where
  lookup_value : List Char
  match_type : List Char
deriving DecidableEq

/-- One entry of `common["funcs"]`: the handler (the spec's RangeSpec plus
    the optional sheet-name override).  `array = none` models an absent
    `"array"` key (`KeyError` when read). -/
structure FuncParams : Type where
  array : Option (List Char)
  row_num : RowNum
  columns_num : ColumnsNum
  actual_name : Option String
deriving DecidableEq

/-- One entry of `common["summary_sheet"]`. -/
structure SummarySpec : Type where
  name : String
  range_col : List Char
  criteria_col : List Char
  tag_groups : Option (List (List (List Char)))
deriving DecidableEq

/-- The effective `common` configuration (the fields the engine reads). -/
structure CommonCfg : Type where
  to_list : String
  to_col : Option String
  name_aliases : List (String × String)
  rows_aliases : List (String × AliasVal)
  rows_column : List Char
  list_aliases : List (String × AliasVal)
  funcs : List (String × FuncParams)
  error_handle : Option (List Char)
  checking_list_existence : Bool
  summary_sheet : List SummarySpec

/-- Parse the two corner references of `params["array"]`
    (`"$A$12:$W$467"` → start row 12, columns A and W, end row 467):
    `arr_parts = array.split(":")`, `int(arr_parts[i].split("$")[-1])` for
    the rows and `arr_parts[i].split("$")[1]` for the column letters.
    `none` models the uncaught `ValueError`/`IndexError` on malformed input. -/
def parseArrayBounds (array : List Char) : Option (Int × List Char × List Char × Int) :=
  match splitOnChar ':' array with
  | p0 :: p1 :: _ =>
      let s0 := splitOnChar '$' p0
      let s1 := splitOnChar '$' p1
      match s0.getLast?, s0.get? 1, s1.get? 1, s1.getLast? with
      | some r0, some c0, some c1, some r1 =>
          match pyInt r0, pyInt r1 with
          | some startRow, some endRow => some (startRow, c0, c1, endRow)
          | _, _ => none
      | _, _, _, _ => none
  | _ => none

/-- The fully-qualified external sheet reference
    `"'" + sheet_ref + "'!"` with
    `sheet_ref = "[file]sheet"` or `"dir\x5c[file]sheet"`. -/
def fullRefOf (absDir filename sheetName : List Char) : List Char :=
  if absDir = lit "." then
    lit "\x27[" ++ filename ++ lit "]" ++ sheetName ++ lit "\x27!"
  else
    lit "\x27" ++ absDir ++ lit "\x5c[" ++ filename ++ lit "]" ++ sheetName ++ lit "\x27!"

/-- `f"{full_ref}${col}${r1}:${col}${r2}"`. -/
def absRange (fullRef col : List Char) (r1 r2 : Int) : List Char :=
  fullRef ++ lit "$" ++ col ++ lit "$" ++ intStr r1 ++ lit ":$" ++ col ++ lit "$" ++ intStr r2

/-- `f"{full_ref}${c1}${r}:${c2}${r}"` (the header row range). -/
def headerRange (fullRef c1 c2 : List Char) (r : Int) : List Char :=
  fullRef ++ lit "$" ++ c1 ++ lit "$" ++ intStr r ++ lit ":$" ++ c2 ++ lit "$" ++ intStr r

/-- The row-locating sub-expression emitted by `_generate_formulas`:
    `SUMPRODUCT(MAX((key_range=lookup)*(edu_range=code)*ROW(key_range)))-(start_row-1)`. -/
def aggregatePart (keyColRange eduColRange lookupValue levelCode : List Char)
    (startRow : Int) : List Char :=
  lit "SUMPRODUCT(MAX(" ++
    lit "(" ++ keyColRange ++ lit "=" ++ lookupValue ++ lit ")*" ++
    lit "(" ++ eduColRange ++ lit "=" ++ levelCode ++ lit ")*" ++
    lit "ROW(" ++ keyColRange ++ lit ")" ++
    lit "))-" ++ intStr (startRow - 1)

/-- `f"MATCH({lookup},{header_range},{match_type})"`. -/
def colMatchExpr (lookupValue headerRowRange matchType : List Char) : List Char :=
  lit "MATCH(" ++ lookupValue ++ lit "," ++ headerRowRange ++ lit "," ++ matchType ++ lit ")"

/-- `_nan_error_handle_(base_formula, handle_errors, error_replacement)`:
    one `IFERROR` wrapper around the formula; the replacement literal is
    `common["error_handle"]` when configured, else the given default. -/
def nanErrorHandle (errorHandle : Option (List Char)) (baseFormula : List Char)
    (handleErrors : Bool) (errorReplacement : List Char) : List Char :=
  let repl := match errorHandle with
    | some e => e
    | none => errorReplacement
  if handleErrors then lit "IFERROR(" ++ baseFormula ++ lit ", " ++ repl ++ lit ")"
  else baseFormula

/-- The `INDEX(...)` positional lookup composed by `_generate_formulas`. -/
def indexExpr (fullRef array agg colMatch : List Char) : List Char :=
  lit "INDEX(" ++ fullRef ++ array ++ lit "," ++ agg ++ lit "," ++ colMatch ++ lit ")"

/-- The output of `_generate_formulas`: the formula string and the params
    keys the function sets (`path_source_file`, `sheet_name`, `sheet_exist`,
    `row_condition`; `sheet_col_name` is set by the caller and threaded). -/
structure GenOut : Type where
  formula : List Char
  sheet_exist : Bool
  row_condition : Option (List Char)
  sheet_col_name : List Char
  path_source_file : List Char
  sheet_name : List Char
deriving DecidableEq

/-- `_generate_formulas(source_file_path, sheet_name, params, level_code)`.
    `absDir`/`filename` stand for `os.path.dirname`/`basename` of the
    absolute source path (path resolution is an external collaborator).
    Errors model the uncaught `KeyError` (absent `"array"`) and
    `ValueError`/`IndexError` (unparseable corners). -/
def generateFormulas (c : CommonCfg) (absDir filename sheetName sheetColName : List Char)
    (p : FuncParams) (levelCode : AliasVal) : Except (List Char) GenOut :=
  let pathSourceFile := absDir ++ lit "\x5c" ++ filename
  if sheetName = lit "None" then
    Except.ok
      { formula := lit "=NA()", sheet_exist := false, row_condition := none,
        sheet_col_name := sheetColName, path_source_file := pathSourceFile,
        sheet_name := sheetName }
  else
    match p.array with
    | none => Except.error (lit "KeyError: array")
    | some array =>
        match parseArrayBounds array with
        | none => Except.error (lit "ValueError: array bounds")
        | some (startRow, startColLetter, endColLetter, endRow) =>
            let fullRef := fullRefOf absDir filename sheetName
            let keyCol := p.row_num.looup_array
            let keyColRange := absRange fullRef keyCol startRow endRow
            let eduColRange := absRange fullRef c.rows_column startRow endRow
            let headerRowRange := headerRange fullRef startColLetter endColLetter startRow
            let agg := aggregatePart keyColRange eduColRange p.row_num.lookup_value
              (render levelCode) startRow
            let cm := colMatchExpr p.columns_num.lookup_value headerRowRange
              p.columns_num.match_type
            let formula := indexExpr fullRef array agg cm
            Except.ok
              { formula := lit "=" ++ nanErrorHandle c.error_handle formula true (lit "0"),
                sheet_exist := true, row_condition := some p.row_num.lookup_value,
                sheet_col_name := sheetColName, path_source_file := pathSourceFile,
                sheet_name := sheetName }

/-! ## Semantics of the emitted row locator

    The emitted sub-expression `SUMPRODUCT(MAX((K=v)*(E=c)*ROW(K)))` is
    evaluated by the spreadsheet engine as the maximum, over the rows of the
    range, of `ROW` where both predicates hold and `0` elsewhere (`SUMPRODUCT`
    of the scalar `MAX` result is that scalar). -/

/-- Value of `MAX((keys=v)*(edus=c)*ROW(keys))` where row numbers start at
    `startRow`. -/
def evalRowLocatorMax (startRow : Nat) : List Int → List Int → Int → Int → Nat
  | k :: ks, e :: es, v, c =>
      max (if k = v ∧ e = c then startRow else 0) (evalRowLocatorMax (startRow + 1) ks es v c)
  | _, _, _, _ => 0

/-- Row `startRow + i` of the range satisfies both predicates. -/
def matchAt (keys edus : List Int) (v c : Int) (i : Nat) : Prop :=
  keys.get? i = some v ∧ edus.get? i = some c

instance (keys edus : List Int) (v c : Int) (i : Nat) :
    Decidable (matchAt keys edus v c i) := by
  unfold matchAt
  infer_instance

theorem evalRowLocatorMax_no_match (v c : Int) :
    ∀ (keys edus : List Int) (startRow : Nat),
      (∀ i, i < keys.length → ¬ matchAt keys edus v c i) →
      evalRowLocatorMax startRow keys edus v c = 0 := by
  intro keys
  induction keys with
  | nil => intro edus startRow _; cases edus <;> rfl
  | cons k ks ih =>
      intro edus startRow hno
      cases edus with
      | nil => rfl
      | cons e es =>
          have h0 : ¬ (k = v ∧ e = c) := by
            intro ⟨h1, h2⟩
            exact hno 0 (by simp) ⟨by simp [h1], by simp [h2]⟩
          have htail : ∀ i, i < ks.length → ¬ matchAt ks es v c i := by
            intro i hi hm
            exact hno (i + 1) (by simp; omega) ⟨by simpa using hm.1, by simpa using hm.2⟩
          simp only [evalRowLocatorMax]
          rw [if_neg h0, ih es (startRow + 1) htail]
          simp

theorem evalRowLocatorMax_last_match (v c : Int) :
    ∀ (keys edus : List Int) (startRow : Nat) (j : Nat),
      j < keys.length → matchAt keys edus v c j →
      (∀ i, i < keys.length → matchAt keys edus v c i → i ≤ j) →
      evalRowLocatorMax startRow keys edus v c = startRow + j := by
  intro keys
  induction keys with
  | nil => intro edus startRow j hj _ _; simp at hj
  | cons k ks ih =>
      intro edus startRow j hj hm hmax
      cases edus with
      | nil =>
          obtain ⟨_, h2⟩ := hm
          simp at h2
      | cons e es =>
          cases j with
          | zero =>
              obtain ⟨h1, h2⟩ := hm
              simp at h1 h2
              have htail : ∀ i, i < ks.length → ¬ matchAt ks es v c i := by
                intro i hi hmi
                have := hmax (i + 1) (by simp; omega)
                  ⟨by simpa using hmi.1, by simpa using hmi.2⟩
                omega
              simp only [evalRowLocatorMax]
              rw [if_pos ⟨h1, h2⟩, evalRowLocatorMax_no_match v c ks es (startRow + 1) htail]
              simp
          | succ j' =>
              have hm' : matchAt ks es v c j' := ⟨by simpa using hm.1, by simpa using hm.2⟩
              have hmax' : ∀ i, i < ks.length → matchAt ks es v c i → i ≤ j' := by
                intro i hi hmi
                have := hmax (i + 1) (by simp; omega)
                  ⟨by simpa using hmi.1, by simpa using hmi.2⟩
                omega
              have hrec := ih es (startRow + 1) j' (by simp at hj; omega) hm' hmax'
              simp only [evalRowLocatorMax]
              rw [hrec]
              have hif : (if k = v ∧ e = c then startRow else 0) ≤ startRow + 1 + j' := by
                by_cases hkv : k = v ∧ e = c
                · rw [if_pos hkv]; omega
                · rw [if_neg hkv]; omega
              rw [Nat.max_eq_right hif]
              omega

/-! ## The grid writer (`_find_first_empty_column`, `_fill_sheet`) -/

/-- One worksheet of the output workbook: the header row (row 1, keyed by
    column index, 1-based), the body cells (keyed by (row, column)) and
    `max_row` (fixed by the template). -/
structure WSheet : Type where
  row1 : List (Nat × List Char)
  cells : List ((Nat × Nat) × List Char)
  maxRow : Nat
deriving DecidableEq

/-- The workbook: association list of sheet name to sheet, in sheet order. -/
abbrev Workbook := List (String × WSheet)

/-- `openpyxl get_column_letter` (bijective base 26, `1 → "A"`), fuelled:
    fuel `≥ n` is always enough. -/
def colLetterGo : Nat → Nat → List Char
  | _, 0 => []
  | 0, _ + 1 => []
  | fuel + 1, n + 1 => colLetterGo fuel (n / 26) ++ [Char.ofNat (65 + n % 26)]

def colLetter (n : Nat) : String := ⟨colLetterGo n n⟩

/-- `openpyxl column_index_from_string` (`"A" → 1`). -/
def colIndexOf (s : String) : Nat :=
  s.data.foldl (fun acc c => acc * 26 + (c.toNat - 64)) 0

/-- `_find_first_empty_column`: scan row 1 from column 1 while cells hold a
    value; fuelled (`|row1| + 1` is always enough since at most `|row1|`
    columns are occupied). -/
def firstEmptyFrom (row1 : List (Nat × List Char)) : Nat → Nat → Nat
  | 0, col => col
  | fuel + 1, col =>
      match alistGet row1 col with
      | some _ => firstEmptyFrom row1 fuel (col + 1)
      | none => col

def firstEmptyCol (row1 : List (Nat × List Char)) : Nat :=
  firstEmptyFrom row1 (row1.length + 1) 1

/-- Write the same column of every data row `r .. last` (the
    `for row in range(2, last_row + 1)` loop of `_fill_sheet`). -/
def writeRows (ws : WSheet) (col : Nat) (first last : Nat) (f : Nat → List Char) : WSheet :=
  (List.range' first (last + 1 - first)).foldl
    (fun acc row => { acc with cells := alistSet acc.cells (row, col) (f row) }) ws

/-- The processor state the writer touches: `first_col_after_template`
    (a single attribute of the `ExcelProcessor` instance, `None` until the
    first writer invocation), the printed per-fill error log, and the record
    of successful fill invocations (the `data_columns` bookkeeping, tagged
    with the handler key for provenance). -/
structure FillRec : Type where
  sheet : String
  listKey : String
  colKey : String
  col : String
deriving DecidableEq

structure ProcState : Type where
  firstCol : Option String
  log : List (String × String)
  trace : List FillRec
deriving DecidableEq

/-- `_fill_sheet(sheet, formulas, source_filename)`:
    find the first empty column of row 1; record it in
    `first_col_after_template` if that attribute is still `None`; write the
    column header; re-check sheet existence when
    `common["checking_list_existence"]`; then fill every data row with the
    row-rewritten formula (or `"=NA()"` when the sheet is absent).
    The state and the (mutated-in-place) sheet are returned even when the
    fill fails (`Except.error` models the uncaught `KeyError` on a missing
    `row_condition`); on success the start column letter is returned. -/
def fillSheet (c : CommonCfg) (st : ProcState) (ws : WSheet) (gout : GenOut)
    (sheetExists : List Char → List Char → Bool) :
    ProcState × WSheet × Except (List Char) String :=
  let startColIdx := firstEmptyCol ws.row1
  let startCol := colLetter startColIdx
  let st1 := match st.firstCol with
    | none => { st with firstCol := some startCol }
    | some _ => st
  let ws1 := { ws with row1 := alistSet ws.row1 startColIdx gout.sheet_col_name }
  let sheetExist :=
    if c.checking_list_existence then sheetExists gout.path_source_file gout.sheet_name
    else gout.sheet_exist
  let body : WSheet × Except (List Char) String :=
    if sheetExist then
      match gout.row_condition with
      | none => (ws1, Except.error (lit "KeyError: row_condition"))
      | some rc =>
          (writeRows ws1 startColIdx 2 ws.maxRow (fun row => fillRowValue gout.formula rc row),
            Except.ok startCol)
    else (writeRows ws1 startColIdx 2 ws.maxRow (fun _ => lit "=NA()"), Except.ok startCol)
  (st1, body)

/-! ## The aggregation compiler (`_collect_headers`, SUMIF builders,
    `_create_summary_sheet`) -/

/-- `sheet.max_column`: the largest occupied column index. -/
def wsMaxCol (ws : WSheet) : Nat :=
  max (ws.row1.foldl (fun acc p => max acc p.1) 1)
    (ws.cells.foldl (fun acc p => max acc p.1.2) 1)

/-- Scan row 1 of one sheet from `col` while cells are non-empty, appending
    unseen header values (the inner `while True` of `_collect_headers`;
    `if not val: break` also stops on an empty string). -/
def scanHeadersFrom (row1 : List (Nat × List Char)) : Nat → Nat → List (List Char) →
    List (List Char)
  | 0, _, acc => acc
  | fuel + 1, col, acc =>
      match alistGet row1 col with
      | none => acc
      | some v =>
          if v = [] then acc
          else scanHeadersFrom row1 fuel (col + 1)
            (if acc.contains v then acc else acc ++ [v])

/-- `_collect_headers(wb)`: the distinct headers of every output sheet
    (`name_aliases` values), scanning each sheet from the single recorded
    `first_col_after_template` column. -/
def collectHeaders (c : CommonCfg) (wb : Workbook) (firstColLetter : String) :
    List (List Char) :=
  c.name_aliases.foldl
    (fun headers p =>
      match alistGet wb p.2 with
      | some ws => scanHeadersFrom ws.row1 (ws.row1.length + 1) (colIndexOf firstColLetter)
          headers
      | none => headers)
    []

/-- Modelled from the spec (§4.4/§4.5): header collection as the
    specification words it — the writer records a first-write column **per
    sheet**, and each sheet is scanned from **its own** recorded column
    (`recorded` gives that per-sheet column; sheets without a record
    contribute nothing). -/
def collectHeadersSpec (c : CommonCfg) (wb : Workbook) (recorded : String → Option Nat) :
    List (List Char) :=
  c.name_aliases.foldl
    (fun headers p =>
      match alistGet wb p.2, recorded p.2 with
      | some ws, some col0 => scanHeadersFrom ws.row1 (ws.row1.length + 1) col0 headers
      | _, _ => headers)
    []

/-- One `SUMIF('{sheet}'!$c:$c,$crit{row},'{sheet}'!L:L)` part (the `{row}`
    placeholder of the source is already instantiated, as `.format(row=row)`
    does). -/
def sumifPart (sheetName : String) (condCol critCol : List Char) (row : Nat)
    (colL : List Char) : List Char :=
  lit "SUMIF(\x27" ++ sheetName.data ++ lit "\x27!$" ++ condCol ++ lit ":$" ++ condCol ++
    lit ",$" ++ critCol ++ natStr row ++ lit ",\x27" ++ sheetName.data ++ lit "\x27!" ++
    colL ++ lit ":" ++ colL

/-- `_get_sumif_parts_for_column`: for each contributing sheet, the first
    column at or right of `first_col_after_template` whose header equals
    `header` (the `break` keeps only the first match per sheet). -/
def getSumifPartsForColumn (c : CommonCfg) (wb : Workbook) (firstColLetter : String)
    (header : List Char) (condCol critCol : List Char) (row : Nat) : List (List Char) :=
  c.name_aliases.foldl
    (fun parts p =>
      match alistGet wb p.2 with
      | none => parts
      | some ws =>
          match (List.range' (colIndexOf firstColLetter)
              (wsMaxCol ws + 1 - colIndexOf firstColLetter)).find?
              (fun col => alistGet ws.row1 col = some header) with
          | none => parts
          | some col => parts ++ [sumifPart p.2 condCol critCol row (colLetterGo col col) ++
              lit ")"])
    []

/-- `_get_sumif_parts_for_tag`: all columns whose header token set covers the
    keyword set; several matches on one sheet are summed inline in
    parentheses. -/
def getSumifPartsForTag (c : CommonCfg) (wb : Workbook) (firstColLetter : String)
    (keywords : List (List Char)) (condCol critCol : List Char) (row : Nat) :
    List (List Char) :=
  c.name_aliases.foldl
    (fun parts p =>
      match alistGet wb p.2 with
      | none => parts
      | some ws =>
          let matched := (List.range' (colIndexOf firstColLetter)
              (wsMaxCol ws + 1 - colIndexOf firstColLetter)).filter
              (fun col => header_matches
                (pyLowerStr ((alistGet ws.row1 col).getD [])) keywords)
          match matched with
          | [] => parts
          | [col] => parts ++ [sumifPart p.2 condCol critCol row (colLetterGo col col) ++
              lit ")"]
          | cols => parts ++ [lit "(" ++
              List.intercalate (lit " + ")
                (cols.map (fun col => sumifPart p.2 condCol critCol row
                  (colLetterGo col col) ++ lit ")")) ++ lit ")"])
    []

/-- Python `str.title`: first letter of each alphabetic run upper-cased,
    the rest lower-cased. -/
def isPyAlpha (c : Char) : Bool :=
  ('A' ≤ c ∧ c ≤ 'Z') ∨ ('a' ≤ c ∧ c ≤ 'z') ∨ ('А' ≤ c ∧ c ≤ 'Я') ∨
    ('а' ≤ c ∧ c ≤ 'я') ∨ c = 'Ё' ∨ c = 'ё'

def pyTitleGo : Bool → List Char → List Char
  | _, [] => []
  | prevAlpha, c :: rest =>
      (if isPyAlpha c then (if prevAlpha then pyLower c else pyUpper c) else c) ::
        pyTitleGo (isPyAlpha c) rest

def pyTitle (s : List Char) : List Char := pyTitleGo false s

/-- Write one summary column: for each data row, join the non-empty SUMIF
    parts with `" + "` behind a leading `"="` (rows with no parts stay
    absent). -/
def writeSummaryRows (ws : WSheet) (colIdx : Nat) (lastRow : Nat)
    (partsAt : Nat → List (List Char)) : WSheet :=
  (List.range' 2 (lastRow + 1 - 2)).foldl
    (fun acc row =>
      match partsAt row with
      | [] => acc
      | parts =>
          let v := lit "=" ++ List.intercalate (lit " + ") parts
          { acc with cells := alistSet acc.cells (row, colIdx) v })
    ws

/-- Write the summary header row labels starting at `startIdx`. -/
def writeSummaryHeaders (ws : WSheet) (startIdx : Nat) (labels : List (List Char)) : WSheet :=
  (List.enumFrom startIdx labels).foldl
    (fun acc p => { acc with row1 := alistSet acc.row1 p.1 p.2 }) ws

/-- `_create_summary_sheet(wb, summary_sheet)`.  `firstCol = none` models the
    `TypeError` of `column_index_from_string(None)` when no writer invocation
    ever happened; an empty workbook models the `IndexError` of
    `wb.worksheets[0]`. -/
def createSummarySheet (c : CommonCfg) (wb : Workbook) (firstCol : Option String)
    (ss : SummarySpec) : Except (List Char) Workbook :=
  if ss.name = "None" then Except.ok wb
  else
    match (match alistGet wb ss.name with
      | some ws => some (wb, ws)
      | none =>
          match wb with
          | [] => none
          | (n0, base) :: _ =>
              if n0 ≠ ss.name then some (wb ++ [(ss.name, base)], base)
              else
                let empty : WSheet := { row1 := [], cells := [], maxRow := 1 }
                some (wb ++ [(ss.name, empty)], empty)) with
    | none => Except.error (lit "IndexError: worksheets")
    | some (wb1, sheet) =>
        match firstCol with
        | none => Except.error (lit "TypeError: first_col_after_template is None")
        | some fc =>
            let startColIdx := firstEmptyCol sheet.row1
            let lastRow := sheet.maxRow
            let tagGroups := match ss.tag_groups with
              | some (g :: gs) => some (g :: gs)
              | _ => none
            match tagGroups with
            | none =>
                let allHeaders := collectHeaders c wb1 fc
                let sheet1 := writeSummaryHeaders sheet startColIdx allHeaders
                let sheet2 := (List.enumFrom startColIdx allHeaders).foldl
                  (fun acc p => writeSummaryRows acc p.1 lastRow
                    (fun row => getSumifPartsForColumn c wb1 fc p.2 ss.range_col
                      ss.criteria_col row))
                  sheet1
                Except.ok (alistSet wb1 ss.name sheet2)
            | some tgs =>
                let tagDict := tgs.foldl
                  (fun acc ws2 => alistSet acc
                    (String.mk (pyTitle (List.intercalate (lit "_") ws2))) ws2) []
                let sheet1 := writeSummaryHeaders sheet startColIdx
                  (tagDict.map (fun p => p.1.data))
                let sheet2 := (List.enumFrom startColIdx tagDict).foldl
                  (fun acc p => writeSummaryRows acc p.1 lastRow
                    (fun row => getSumifPartsForTag c wb1 fc p.2.2 ss.range_col
                      ss.criteria_col row))
                  sheet1
                Except.ok (alistSet wb1 ss.name sheet2)

/-! ## The per-year grid routing (`_process_data_for_year`) and the driver
    (`process_years`, `_get_years_to_process`) -/

/-- A located source file: `os.path.dirname`/`os.path.basename` of its
    absolute path (path resolution is an external collaborator). -/
structure SrcFile : Type where
  absDir : List Char
  filename : List Char
deriving DecidableEq

/-- `pathlib.Path(name).stem`: the name minus its final dot-suffix (a
    leading dot alone is not a suffix). -/
def pyStem (s : List Char) : List Char :=
  let r := s.reverse
  let tail := r.takeWhile (fun c => c ≠ '.')
  if tail.length + 1 < s.length then (r.drop (tail.length + 1)).reverse
  else s

/-- External collaborators of one run: template loading, file discovery,
    the pandas sheet-existence probe and workbook saving.  A `false` from
    `saveOk` models an exception raised by `Workbook.save`. -/
structure Env : Type where
  templateLoad : Except (List Char) Workbook
  filesFor : String → List SrcFile
  sheetExists : List Char → List Char → Bool
  saveOk : String → Bool

/-- `self.common[name]` for the two axis-group names (anything else raises
    `KeyError`). -/
def axisOf (c : CommonCfg) (s : String) : Option (List (String × AliasVal)) :=
  if s = "rows_aliases" then some c.rows_aliases
  else if s = "list_aliases" then some c.list_aliases
  else none

/-- The in-flight state of the routing loops. -/
structure LoopSt : Type where
  wb : Workbook
  st : ProcState
  dc : List (String × List String)
deriving DecidableEq

/-- `data_columns.setdefault(sheet_name, []).append(start_col)`. -/
def dcAppend (dc : List (String × List String)) (sheetName : String) (col : String) :
    List (String × List String) :=
  match alistGet dc sheetName with
  | some l => alistSet dc sheetName (l ++ [col])
  | none => alistSet dc sheetName [col]

/-- The innermost loop of `_process_data_for_year`
    (`for code in code_list`): generate the formula — an error here is NOT
    caught and propagates — then try to fill; a fill failure is printed
    (logged) and the loop continues. -/
def processCodes (c : CommonCfg) (env : Env) (sheetName : String) (colKey listKey : String)
    (srcRendered scn : List Char) (f : SrcFile) (p : FuncParams) :
    List AliasVal → LoopSt → Except (List Char) LoopSt
  | [], ls => Except.ok ls
  | code :: rest, ls =>
      match generateFormulas c f.absDir f.filename srcRendered scn p code with
      | Except.error e => Except.error e
      | Except.ok gout =>
          match alistGet ls.wb sheetName with
          | none => Except.error (lit "KeyError: sheet")
          | some ws =>
              match fillSheet c ls.st ws gout env.sheetExists with
              | (st1, ws1, Except.ok startCol) =>
                  processCodes c env sheetName colKey listKey srcRendered scn f p rest
                    { wb := alistSet ls.wb sheetName ws1,
                      st := { st1 with trace := st1.trace ++
                        [{ sheet := sheetName, listKey := listKey, colKey := colKey,
                           col := startCol }] },
                      dc := dcAppend ls.dc sheetName startCol }
              | (st1, ws1, Except.error _) =>
                  processCodes c env sheetName colKey listKey srcRendered scn f p rest
                    { wb := alistSet ls.wb sheetName ws1,
                      st := { st1 with log := st1.log ++ [(sheetName, colKey)] },
                      dc := ls.dc }

/-- The middle loop (`for col_key, col_value in col_aliases.items()`):
    resolve `(level_code, sheet_source, list_key)` according to the axis
    designation, silently skip keys without a handler in `common["funcs"]`,
    apply the `actual_name` override, and run the code list. -/
def processCols (c : CommonCfg) (env : Env) (toListIsRows : Bool) (sheetKey : String)
    (sheetValue : AliasVal) (sheetName : String) (f : SrcFile) :
    List (String × AliasVal) → LoopSt → Except (List Char) LoopSt
  | [], ls => Except.ok ls
  | (colKey, colValue) :: rest, ls =>
      let levelCode := if toListIsRows then sheetValue else colValue
      let sheetSource0 := if toListIsRows then colValue else sheetValue
      let listKey := if toListIsRows then colKey else sheetKey
      match alistGet c.funcs listKey with
      | none => processCols c env toListIsRows sheetKey sheetValue sheetName f rest ls
      | some p =>
          let scn := pyStem f.filename ++ lit "_" ++ colKey.data
          let sheetSource := match p.actual_name with
            | some s => AliasVal.str s
            | none => sheetSource0
          let codeList := match levelCode with
            | AliasVal.vlist l => l
            | v => [v]
          match processCodes c env sheetName colKey listKey (render sheetSource) scn f p
              codeList ls with
          | Except.error e => Except.error e
          | Except.ok ls1 => processCols c env toListIsRows sheetKey sheetValue sheetName f
              rest ls1

/-- The outer loop (`for sheet_key, sheet_value in list_aliases.items()`):
    resolve the output sheet name through `name_aliases`, create the sheet as
    a copy of the first worksheet when absent (an empty workbook raises
    `IndexError`), then run the column loop. -/
def processSheets (c : CommonCfg) (env : Env) (toListIsRows : Bool) (f : SrcFile)
    (colAliases : List (String × AliasVal)) :
    List (String × AliasVal) → LoopSt → Except (List Char) LoopSt
  | [], ls => Except.ok ls
  | (sheetKey, sheetValue) :: rest, ls =>
      let sheetName := (alistGet c.name_aliases sheetKey).getD sheetKey
      match (match alistGet ls.wb sheetName with
        | some _ => some ls.wb
        | none =>
            match ls.wb with
            | [] => none
            | (_, base) :: _ => some (ls.wb ++ [(sheetName, base)])) with
      | none => Except.error (lit "IndexError: worksheets")
      | some wb1 =>
          match processCols c env toListIsRows sheetKey sheetValue sheetName f colAliases
              { ls with wb := wb1 } with
          | Except.error e => Except.error e
          | Except.ok ls1 => processSheets c env toListIsRows f colAliases rest ls1

/-- `_process_data_for_year(new_wb, source_file_path, year)`. -/
def processDataForYear (c : CommonCfg) (env : Env) (wb : Workbook) (st : ProcState)
    (f : SrcFile) : Except (List Char) LoopSt :=
  let toList := c.to_list
  let toCol := c.to_col.getD (if toList = "rows_aliases" then "list_aliases"
    else "rows_aliases")
  match axisOf c toList, axisOf c toCol with
  | some listAliases, some colAliases =>
      processSheets c env (toList = "rows_aliases") f colAliases listAliases
        { wb := wb, st := st, dc := [] }
  | _, _ => Except.error (lit "KeyError: axis group")

/-- `selected_years`: the single-string form or the list form. -/
inductive Selected : Type where
  | str : String → Selected
  | list : List String → Selected

/-- `_get_years_to_process(selected_years)`. -/
def getYearsToProcess (years : List (String × CommonCfg)) : Selected → List String
  | Selected.str s =>
      if s = "all" then years.map Prod.fst
      else if (years.map Prod.fst).contains s then [s] else []
  | Selected.list l => l.filter (fun y => (years.map Prod.fst).contains y)

/-- The per-year file loop of `process_years` (step 4): any error aborts. -/
def processFiles (c : CommonCfg) (env : Env) :
    List SrcFile → Workbook → ProcState → Except (List Char) (Workbook × ProcState)
  | [], wb, st => Except.ok (wb, st)
  | f :: rest, wb, st =>
      match processDataForYear c env wb st f with
      | Except.error e => Except.error e
      | Except.ok ls => processFiles c env rest ls.wb ls.st

/-- The summary loop of `process_years` (step 5): any error aborts. -/
def processSummaries (c : CommonCfg) (firstCol : Option String) :
    List SummarySpec → Workbook → Except (List Char) Workbook
  | [], wb => Except.ok wb
  | ss :: rest, wb =>
      match createSummarySheet c wb firstCol ss with
      | Except.error e => Except.error e
      | Except.ok wb1 => processSummaries c firstCol rest wb1

/-- The per-year body of `process_years` over the selected year keys.
    `years` maps each period key to its effective configuration (the
    `_deep_merge_dicts(common_init, years_data[year])` merge is modelled in
    its own right above); the saved workbook is recorded under the year key
    (`_get_output_path` string building is an external path concern).
    Every error inside the loop reaches the surrounding `except`, which
    re-raises: the run aborts. -/
def processYearsGo (years : List (String × CommonCfg)) (env : Env) :
    List String → ProcState → List (String × Workbook) →
    Except (List Char) (List (String × Workbook) × ProcState)
  | [], st, outs => Except.ok (outs, st)
  | y :: rest, st, outs =>
      match alistGet years y with
      | none => Except.error (lit "KeyError: year")
      | some cY =>
          match env.templateLoad with
          | Except.error e => Except.error e
          | Except.ok templateWb =>
              match processFiles cY env (env.filesFor y) templateWb st with
              | Except.error e => Except.error e
              | Except.ok (wb1, st1) =>
                  match processSummaries cY st1.firstCol cY.summary_sheet wb1 with
                  | Except.error e => Except.error e
                  | Except.ok wb2 =>
                      let wb3 := wb2.filter (fun p => p.1 ≠ "шаблон")
                      if env.saveOk y then
                        processYearsGo years env rest st1 (outs ++ [(y, wb3)])
                      else Except.error (lit "save failed")

/-- `process_years(input_dir, selected_years, include_optional)`. -/
def processYears (years : List (String × CommonCfg)) (env : Env) (st0 : ProcState)
    (selected : Selected) : Except (List Char) (List (String × Workbook) × ProcState) :=
  processYearsGo years env (getYearsToProcess years selected) st0 []

theorem fillSheet_fst (c : CommonCfg) (st : ProcState) (ws : WSheet) (gout : GenOut)
    (se : List Char → List Char → Bool) :
    (fillSheet c st ws gout se).1 =
      match st.firstCol with
      | none => { st with firstCol := some (colLetter (firstEmptyCol ws.row1)) }
      | some _ => st := by
  unfold fillSheet
  cases st.firstCol <;> rfl

theorem fillSheet_fst_trace (c : CommonCfg) (st : ProcState) (ws : WSheet) (gout : GenOut)
    (se : List Char → List Char → Bool) :
    (fillSheet c st ws gout se).1.trace = st.trace ∧
    (fillSheet c st ws gout se).1.log = st.log ∧
    (∀ l, st.firstCol = some l → (fillSheet c st ws gout se).1.firstCol = some l) := by
  rw [fillSheet_fst]
  cases hfc : st.firstCol with
  | none => exact ⟨rfl, rfl, fun l hl => by cases hl⟩
  | some l0 => exact ⟨rfl, rfl, fun l hl => hfc.trans hl⟩

theorem alistGet_mem_pair {κ α : Type} [DecidableEq κ] (l : List (κ × α)) (k : κ) (v : α)
    (h : alistGet l k = some v) : (k, v) ∈ l := by
  induction l with
  | nil => simp [alistGet] at h
  | cons hd tl ih =>
      obtain ⟨k1, v1⟩ := hd
      by_cases h1 : k1 = k
      · simp [alistGet, h1] at h
        simp [h1, h]
      · simp [alistGet, h1] at h
        exact List.mem_cons_of_mem _ (ih h)

theorem alistGet_set_isSome {κ α : Type} [DecidableEq κ] (l : List (κ × α)) (k k' : κ)
    (v : α) (h : (alistGet l k').isSome) : (alistGet (alistSet l k v) k').isSome := by
  by_cases hk : k = k'
  · subst hk
    rw [alistGet_set_self]
    rfl
  · rw [alistGet_set_ne _ _ _ _ hk]
    exact h

theorem alistGet_append_isSome {κ α : Type} [DecidableEq κ] (l l2 : List (κ × α)) (k : κ)
    (h : (alistGet l k).isSome) : (alistGet (l ++ l2) k).isSome := by
  induction l with
  | nil => simp [alistGet] at h
  | cons hd tl ih =>
      obtain ⟨k1, v1⟩ := hd
      by_cases h1 : k1 = k
      · simp [alistGet, h1]
      · simp only [List.cons_append, alistGet, h1, if_false] at h ⊢
        exact ih h

theorem alistGet_append_self {κ α : Type} [DecidableEq κ] (l : List (κ × α)) (k : κ) (v : α)
    (h : alistGet l k = none) : alistGet (l ++ [(k, v)]) k = some v := by
  induction l with
  | nil => simp [alistGet]
  | cons hd tl ih =>
      obtain ⟨k1, v1⟩ := hd
      by_cases h1 : k1 = k
      · simp [alistGet, h1] at h
      · simp only [alistGet, h1, if_false] at h
        simp only [List.cons_append, alistGet, h1, if_false]
        exact ih h

theorem processCodes_inv (c : CommonCfg) (env : Env) (sn ck lk : String)
    (sr scn : List Char) (f : SrcFile) (p : FuncParams) :
    ∀ (codes : List AliasVal) (ls ls1 : LoopSt),
      processCodes c env sn ck lk sr scn f p codes ls = Except.ok ls1 →
      (∀ r ∈ ls1.st.trace, r ∈ ls.st.trace ∨ r.listKey = lk) ∧
      (∀ l, ls.st.firstCol = some l → ls1.st.firstCol = some l) ∧
      (∀ n, (alistGet ls.wb n).isSome → (alistGet ls1.wb n).isSome) := by
  intro codes
  induction codes with
  | nil =>
      intro ls ls1 h
      simp only [processCodes, Except.ok.injEq] at h
      subst h
      exact ⟨fun r hr => Or.inl hr, fun l hl => hl, fun n hn => hn⟩
  | cons code rest ih =>
      intro ls ls1 h
      simp only [processCodes] at h
      cases hg : generateFormulas c f.absDir f.filename sr scn p code with
      | error e => simp [hg] at h
      | ok gout =>
          simp only [hg] at h
          cases hws : alistGet ls.wb sn with
          | none => simp [hws] at h
          | some ws =>
              simp only [hws] at h
              obtain ⟨htr, _hlog, hfc⟩ := fillSheet_fst_trace c ls.st ws gout env.sheetExists
              rcases hfs : fillSheet c ls.st ws gout env.sheetExists with ⟨st1, ws1, res⟩
              simp only [hfs] at h htr hfc
              cases res with
              | ok startCol =>
                  obtain ⟨ih1, ih2, ih3⟩ := ih _ _ h
                  refine ⟨fun r hr => ?_, fun l hl => ih2 l (hfc l hl), fun n hn =>
                    ih3 n (alistGet_set_isSome _ _ _ _ hn)⟩
                  rcases ih1 r hr with hin | hlk
                  · simp only [htr] at hin
                    rw [List.mem_append] at hin
                    rcases hin with hin | hin
                    · exact Or.inl hin
                    · simp at hin
                      subst hin
                      exact Or.inr rfl
                  · exact Or.inr hlk
              | error e =>
                  obtain ⟨ih1, ih2, ih3⟩ := ih _ _ h
                  refine ⟨fun r hr => ?_, fun l hl => ih2 l (hfc l hl), fun n hn =>
                    ih3 n (alistGet_set_isSome _ _ _ _ hn)⟩
                  rcases ih1 r hr with hin | hlk
                  · rw [htr] at hin
                    exact Or.inl hin
                  · exact Or.inr hlk

theorem processCols_inv (c : CommonCfg) (env : Env) (tir : Bool) (sk : String)
    (sv : AliasVal) (sn : String) (f : SrcFile) :
    ∀ (cols : List (String × AliasVal)) (ls ls1 : LoopSt),
      processCols c env tir sk sv sn f cols ls = Except.ok ls1 →
      (∀ r ∈ ls1.st.trace, r ∈ ls.st.trace ∨ r.listKey ∈ c.funcs.map Prod.fst) ∧
      (∀ l, ls.st.firstCol = some l → ls1.st.firstCol = some l) ∧
      (∀ n, (alistGet ls.wb n).isSome → (alistGet ls1.wb n).isSome) := by
  intro cols
  induction cols with
  | nil =>
      intro ls ls1 h
      simp only [processCols, Except.ok.injEq] at h
      subst h
      exact ⟨fun r hr => Or.inl hr, fun l hl => hl, fun n hn => hn⟩
  | cons kv rest ih =>
      obtain ⟨colKey, colValue⟩ := kv
      intro ls ls1 h
      simp only [processCols] at h
      split at h
      · exact ih _ _ h
      · rename_i p hfk
        split at h
        · simp at h
        · rename_i lsMid hpc
          obtain ⟨c1, c2, c3⟩ := processCodes_inv c env sn colKey _ _ _ f p _ _ _ hpc
          obtain ⟨i1, i2, i3⟩ := ih _ _ h
          refine ⟨fun r hr => ?_, fun l hl => i2 l (c2 l hl),
            fun n hn => i3 n (c3 n hn)⟩
          rcases i1 r hr with hin | hmem
          · rcases c1 r hin with hin2 | hlk
            · exact Or.inl hin2
            · rw [hlk]
              exact Or.inr (alistGet_mem_keys _ _ _ hfk)
          · exact Or.inr hmem

theorem processSheets_inv (c : CommonCfg) (env : Env) (tir : Bool) (f : SrcFile)
    (colAliases : List (String × AliasVal)) :
    ∀ (sheets : List (String × AliasVal)) (ls ls1 : LoopSt),
      processSheets c env tir f colAliases sheets ls = Except.ok ls1 →
      (∀ r ∈ ls1.st.trace, r ∈ ls.st.trace ∨ r.listKey ∈ c.funcs.map Prod.fst) ∧
      (∀ l, ls.st.firstCol = some l → ls1.st.firstCol = some l) := by
  intro sheets
  induction sheets with
  | nil =>
      intro ls ls1 h
      simp only [processSheets, Except.ok.injEq] at h
      subst h
      exact ⟨fun r hr => Or.inl hr, fun l hl => hl⟩
  | cons kv rest ih =>
      obtain ⟨sheetKey, sheetValue⟩ := kv
      intro ls ls1 h
      simp only [processSheets] at h
      split at h
      · simp at h
      · rename_i wb1 hwb1
        split at h
        · simp at h
        · rename_i lsMid hpc
          obtain ⟨c1, c2, _c3⟩ := processCols_inv c env tir sheetKey sheetValue _ f _ _ _ hpc
          obtain ⟨i1, i2⟩ := ih _ _ h
          refine ⟨fun r hr => ?_, fun l hl => i2 l (c2 l hl)⟩
          rcases i1 r hr with hin | hmem
          · exact c1 r hin
          · exact Or.inr hmem

theorem processDataForYear_inv (c : CommonCfg) (env : Env) (wb : Workbook)
    (st : ProcState) (f : SrcFile) (ls1 : LoopSt)
    (h : processDataForYear c env wb st f = Except.ok ls1) :
    (∀ r ∈ ls1.st.trace, r ∈ st.trace ∨ r.listKey ∈ c.funcs.map Prod.fst) ∧
    (∀ l, st.firstCol = some l → ls1.st.firstCol = some l) := by
  simp only [processDataForYear] at h
  split at h
  · exact processSheets_inv c env _ f _ _ _ _ h
  · simp at h

/-- Every handler of `common["funcs"]` carries a present, parseable
    `"array"` range (the spec's well-formedness of `RangeSpec`). -/
def GenOkB (c : CommonCfg) : Bool :=
  c.funcs.all (fun kp =>
    match kp.2.array with
    | some a => (parseArrayBounds a).isSome
    | none => false)

theorem generateFormulas_ok (c : CommonCfg) (absDir filename sn scn : List Char)
    (p : FuncParams) (code : AliasVal)
    (hp : (match p.array with
      | some a => (parseArrayBounds a).isSome
      | none => false) = true) :
    ∃ g, generateFormulas c absDir filename sn scn p code = Except.ok g := by
  unfold generateFormulas
  by_cases hn : sn = lit "None"
  · rw [if_pos hn]
    exact ⟨_, rfl⟩
  · rw [if_neg hn]
    cases ha : p.array with
    | none => simp [ha] at hp
    | some a =>
        cases hb : parseArrayBounds a with
        | none => simp [ha, hb] at hp
        | some bnds =>
            obtain ⟨r0, c0, c1, r1⟩ := bnds
            simp only [ha, hb]
            exact ⟨_, rfl⟩

theorem GenOkB_spec (c : CommonCfg) (k : String) (p : FuncParams)
    (hall : GenOkB c = true) (hk : alistGet c.funcs k = some p) :
    (match p.array with
      | some a => (parseArrayBounds a).isSome
      | none => false) = true := by
  unfold GenOkB at hall
  rw [List.all_eq_true] at hall
  exact hall (k, p) (alistGet_mem_pair _ _ _ hk)

theorem processCodes_total (c : CommonCfg) (env : Env) (sn ck lk : String)
    (sr scn : List Char) (f : SrcFile) (p : FuncParams)
    (hp : (match p.array with
      | some a => (parseArrayBounds a).isSome
      | none => false) = true) :
    ∀ (codes : List AliasVal) (ls : LoopSt), (alistGet ls.wb sn).isSome →
      ∃ ls1, processCodes c env sn ck lk sr scn f p codes ls = Except.ok ls1 := by
  intro codes
  induction codes with
  | nil => intro ls _; exact ⟨ls, rfl⟩
  | cons code rest ih =>
      intro ls hsn
      obtain ⟨g, hg⟩ := generateFormulas_ok c f.absDir f.filename sr scn p code hp
      simp only [processCodes, hg]
      cases hws : alistGet ls.wb sn with
      | none => rw [hws] at hsn; cases hsn
      | some ws =>
          rcases hfs : fillSheet c ls.st ws g env.sheetExists with ⟨st1, ws1, res⟩
          simp only [hfs]
          cases res with
          | ok startCol =>
              exact ih _ (alistGet_set_isSome _ _ _ _ hsn)
          | error e =>
              exact ih _ (alistGet_set_isSome _ _ _ _ hsn)

theorem processCols_total (c : CommonCfg) (env : Env) (tir : Bool) (sk : String)
    (sv : AliasVal) (sn : String) (f : SrcFile) (hall : GenOkB c = true) :
    ∀ (cols : List (String × AliasVal)) (ls : LoopSt), (alistGet ls.wb sn).isSome →
      ∃ ls1, processCols c env tir sk sv sn f cols ls = Except.ok ls1 := by
  intro cols
  induction cols with
  | nil => intro ls _; exact ⟨ls, rfl⟩
  | cons kv rest ih =>
      obtain ⟨colKey, colValue⟩ := kv
      intro ls hsn
      simp only [processCols]
      cases hfk : alistGet c.funcs (if tir then colKey else sk) with
      | none => exact ih ls hsn
      | some p =>
          dsimp only
          obtain ⟨lsMid, hpc⟩ := processCodes_total c env sn colKey
            (if tir then colKey else sk)
            (render (match p.actual_name with
              | some s => AliasVal.str s
              | none => if tir then colValue else sv))
            (pyStem f.filename ++ lit "_" ++ colKey.data) f p
            (GenOkB_spec c _ p hall hfk)
            (match (if tir then sv else colValue) with
              | AliasVal.vlist l => l
              | v => [v]) ls hsn
          rw [hpc]
          obtain ⟨_, _, c3⟩ := processCodes_inv c env sn colKey _ _ _ f p _ _ _ hpc
          exact ih lsMid (c3 sn hsn)

theorem isSome_ne_nil {κ α : Type} [DecidableEq κ] (l : List (κ × α)) (k : κ)
    (h : (alistGet l k).isSome) : l ≠ [] := by
  intro he
  subst he
  simp [alistGet] at h

theorem processSheets_total (c : CommonCfg) (env : Env) (tir : Bool) (f : SrcFile)
    (colAliases : List (String × AliasVal)) (hall : GenOkB c = true) :
    ∀ (sheets : List (String × AliasVal)) (ls : LoopSt), ls.wb ≠ [] →
      ∃ ls1, processSheets c env tir f colAliases sheets ls = Except.ok ls1 ∧ ls1.wb ≠ [] := by
  intro sheets
  induction sheets with
  | nil => intro ls hne; exact ⟨ls, rfl, hne⟩
  | cons kv rest ih =>
      obtain ⟨sheetKey, sheetValue⟩ := kv
      intro ls hne
      simp only [processSheets]
      have hstep : ∃ wb1, (match alistGet ls.wb ((alistGet c.name_aliases sheetKey).getD
            sheetKey) with
          | some _ => some ls.wb
          | none =>
              match ls.wb with
              | [] => none
              | (_, base) :: _ => some (ls.wb ++ [((alistGet c.name_aliases sheetKey).getD
                  sheetKey, base)])) = some wb1 ∧
          (alistGet wb1 ((alistGet c.name_aliases sheetKey).getD sheetKey)).isSome := by
        cases hpres : alistGet ls.wb ((alistGet c.name_aliases sheetKey).getD sheetKey) with
        | some ws => exact ⟨ls.wb, rfl, by rw [hpres]; rfl⟩
        | none =>
            cases hwb : ls.wb with
            | nil => exact absurd hwb hne
            | cons hd tl =>
                obtain ⟨n0, base⟩ := hd
                refine ⟨(n0, base) :: tl ++ [((alistGet c.name_aliases sheetKey).getD
                  sheetKey, base)], rfl, ?_⟩
                rw [← hwb, alistGet_append_self _ _ _ hpres]
                rfl
      obtain ⟨wb1, hwb1, hpres1⟩ := hstep
      simp only [hwb1]
      obtain ⟨lsMid, hpc⟩ := processCols_total c env tir sheetKey sheetValue _ f hall
        colAliases { ls with wb := wb1 } hpres1
      simp only [hpc]
      obtain ⟨_, _, c3⟩ := processCols_inv c env tir sheetKey sheetValue _ f _ _ _ hpc
      exact ih lsMid (isSome_ne_nil _ _ (c3 _ hpres1))

theorem processDataForYear_total (c : CommonCfg) (env : Env) (wb : Workbook)
    (st : ProcState) (f : SrcFile) (hall : GenOkB c = true) (hwb : wb ≠ [])
    (haxis : (axisOf c c.to_list).isSome ∧
      (axisOf c (c.to_col.getD (if c.to_list = "rows_aliases" then "list_aliases"
        else "rows_aliases"))).isSome) :
    ∃ ls1, processDataForYear c env wb st f = Except.ok ls1 := by
  obtain ⟨h1, h2⟩ := haxis
  simp only [processDataForYear]
  cases hx1 : axisOf c c.to_list with
  | none => rw [hx1] at h1; cases h1
  | some listAliases =>
      cases hx2 : axisOf c (c.to_col.getD (if c.to_list = "rows_aliases" then "list_aliases"
          else "rows_aliases")) with
      | none => rw [hx2] at h2; cases h2
      | some colAliases =>
          obtain ⟨ls1, hok, _⟩ := processSheets_total c env (c.to_list = "rows_aliases") f
            colAliases hall listAliases { wb := wb, st := st, dc := [] } hwb
          exact ⟨ls1, hok⟩

/-! ## Claims -/

/-- Claim C2: for every ConfigTree `b`, `merge(b, {}) == b`; and the merge
    recurses only at keys where both sides hold mappings — at every other
    overlapping key the overlay's value replaces the base's value wholesale
    (`mergeVal`), so lists are replaced, not concatenated, and the overlay's
    leaf values take precedence over the base's. -/
theorem claim2_merge_identity_and_precedence :
    (∀ b : List (String × ConfigTree), deep_merge_dicts b [] = b) ∧
    (∀ (b o : List (String × ConfigTree)) (k : String), (o.map Prod.fst).Nodup →
      alistGet (deep_merge_dicts b o) k =
        match alistGet o k with
        | some v => some (mergeVal (alistGet b k) v)
        | none => alistGet b k) ∧
    (∀ (b : List (String × ConfigTree)) (k : String) (l l2 : List ConfigTree),
      alistGet b k = some (ConfigTree.list l2) →
      alistGet (deep_merge_dicts b [(k, ConfigTree.list l)]) k =
        some (ConfigTree.list l)) := by
  refine ⟨deep_merge_dicts_nil, fun b o k hnd => deep_merge_get o b k hnd, ?_⟩
  intro b k l l2 hb
  rw [deep_merge_get [(k, ConfigTree.list l)] b k (by simp)]
  simp [alistGet, hb, mergeVal]

/-- Witness for C2 at a concrete base and overlay. -/
theorem claim2_merge_identity_and_precedence_witness :
    (([("a", ConfigTree.int 2)].map (Prod.fst (α := String) (β := ConfigTree))).Nodup) ∧
    alistGet (deep_merge_dicts [("a", ConfigTree.int 1), ("c", ConfigTree.int 5)]
        [("a", ConfigTree.int 2)]) "a" =
      match alistGet [("a", ConfigTree.int 2)] "a" with
      | some v => some (mergeVal
          (alistGet [("a", ConfigTree.int 1), ("c", ConfigTree.int 5)] "a") v)
      | none => alistGet [("a", ConfigTree.int 1), ("c", ConfigTree.int 5)] "a" :=
  ⟨by simp, claim2_merge_identity_and_precedence.2.1
    [("a", ConfigTree.int 1), ("c", ConfigTree.int 5)] [("a", ConfigTree.int 2)] "a"
    (by simp)⟩

/-- Claim C3: `_deep_merge_dicts` is pure in the store model: when the call
    returns, every object id that existed before it (in particular every
    object of `base` and of `overlay`) still holds the same object — the
    shared base configuration is structurally unchanged and reusable — and
    the returned root is a freshly allocated object. -/
theorem claim3_merge_pure (fuel : Nat) (h : Heap) (baseId ovId : Nat) (h2 : Heap) (r : Nat)
    (hc : deep_merge_heap fuel h baseId ovId = some (h2, r)) :
    (∀ n, n < h.length → hGet h2 n = hGet h n) ∧ h.length ≤ r := by
  have hfr := dmergeGo_frame fuel h (MJob.merge baseId ovId) h2 r hc
  simp only at hfr
  exact ⟨hfr.1.2, hfr.2⟩

/-- Witness for C3: a concrete two-object merge leaves the original heap
    untouched and allocates the result afresh. -/
theorem claim3_merge_pure_witness :
    (∀ n, n < List.length [HObj.scalar 1, HObj.dict [("a", 0)], HObj.dict []] →
      hGet [HObj.scalar 1, HObj.dict [("a", 0)], HObj.dict [],
        HObj.scalar 1, HObj.dict [("a", 3)]] n =
      hGet [HObj.scalar 1, HObj.dict [("a", 0)], HObj.dict []] n) ∧
    List.length [HObj.scalar 1, HObj.dict [("a", 0)], HObj.dict []] ≤ 4 :=
  claim3_merge_pure 5 [HObj.scalar 1, HObj.dict [("a", 0)], HObj.dict []] 1 2
    [HObj.scalar 1, HObj.dict [("a", 0)], HObj.dict [], HObj.scalar 1,
      HObj.dict [("a", 3)]] 4 (by decide)

/-- Claim C7: in tag-group mode a header matches a keyword set iff every
    keyword, lower-cased, equals one whole token of the lower-cased header,
    where tokens are the maximal runs of letters, digits and hyphens; in
    particular the Cyrillic example header matches
    `["москва", "заочная"]` but not `["москва", "вечерняя"]`. -/
theorem claim7_header_matching :
    (∀ (h : List Char) (kws : List (List Char)),
      header_matches h kws = true ↔
        ∀ kw ∈ kws, ∃ t ∈ tokenize (pyLowerStr h), pyLowerStr kw = t) ∧
    header_matches (lit "Москва заочная очно-заочная")
      [lit "москва", lit "заочная"] = true ∧
    header_matches (lit "Москва заочная очно-заочная")
      [lit "москва", lit "вечерняя"] = false := by
  refine ⟨fun h kws => ?_, by decide, by decide⟩
  unfold header_matches
  rw [List.all_eq_true]
  constructor
  · intro hall kw hkw
    have hmem := hall kw hkw
    exact ⟨pyLowerStr kw, by simpa using hmem, rfl⟩
  · intro hall kw hkw
    obtain ⟨t, ht, hte⟩ := hall kw hkw
    rw [hte]
    simpa using ht

/-- Claim C10: when `selected_years` (single-string form other than "all", or
    list form) names no period key of the configuration, `process_years`
    selects zero periods, completes normally and produces no output
    workbook. -/
theorem claim10_unknown_years_noop (years : List (String × CommonCfg)) (env : Env)
    (st0 : ProcState) (sel : Selected)
    (h : match sel with
      | Selected.str s => s ≠ "all" ∧ s ∉ years.map Prod.fst
      | Selected.list l => ∀ y ∈ l, y ∉ years.map Prod.fst) :
    getYearsToProcess years sel = [] ∧
      processYears years env st0 sel = Except.ok ([], st0) := by
  have hempty : getYearsToProcess years sel = [] := by
    cases sel with
    | str s =>
        obtain ⟨h1, h2⟩ := h
        have hc : (years.map Prod.fst).contains s = false := by
          by_contra hcc
          simp only [Bool.not_eq_false] at hcc
          exact h2 (by simpa using hcc)
        simp only [getYearsToProcess, if_neg h1, hc, Bool.false_eq_true, if_false]
    | list l =>
        simp only [getYearsToProcess]
        rw [List.filter_eq_nil_iff]
        intro y hy hcc
        exact h y hy (by simpa using hcc)
  refine ⟨hempty, ?_⟩
  unfold processYears
  rw [hempty]
  rfl

/-- A trivial effective configuration used by concrete runs. -/
def cfgTrivial : CommonCfg where
  to_list := "list_aliases"
  to_col := none
  name_aliases := []
  rows_aliases := []
  rows_column := lit "B"
  list_aliases := []
  funcs := []
  error_handle := none
  checking_list_existence := false
  summary_sheet := []

/-- A benign environment used by concrete runs. -/
def envTrivial : Env where
  templateLoad := Except.ok []
  filesFor := fun _ => []
  sheetExists := fun _ _ => true
  saveOk := fun _ => true

/-- The initial processor state (`first_col_after_template = None`). -/
def stInit : ProcState where
  firstCol := none
  log := []
  trace := []

/-- Witness for C10: one configured period, an unknown year requested. -/
theorem claim10_unknown_years_noop_witness :
    getYearsToProcess [("2020", cfgTrivial)] (Selected.str "2019") = [] ∧
    processYears [("2020", cfgTrivial)] envTrivial stInit (Selected.str "2019") =
      Except.ok ([], stInit) :=
  claim10_unknown_years_noop [("2020", cfgTrivial)] envTrivial stInit
    (Selected.str "2019") (by constructor <;> decide)

/-- C4 counterexample: for the lookup value `"A12"` (trailing digit sequence
    `"12"`), the code rewrites only the final character — it emits
    `"SUM(X=A15)"` for row 5 where the specified
    rewrite-the-trailing-digit-sequence produces `"SUM(X=A5)"`. -/
theorem claim4_counterexample :
    fillRowValue (lit "SUM(X=A12)") (lit "A12") 5 = lit "SUM(X=A15)" ∧
    fillRowSpec (lit "SUM(X=A12)") (lit "A12") 5 = lit "SUM(X=A5)" ∧
    fillRowValue (lit "SUM(X=A12)") (lit "A12") 5 ≠
      fillRowSpec (lit "SUM(X=A12)") (lit "A12") 5 := by
  refine ⟨by decide, by decide, by decide⟩

/-- Claim C4 (amended): the per-row formula is produced by replacing the
    literal `"=" + lookupValue` marker with `"="`, the lookup value minus its
    final character, and the row number; when the marker occurs exactly once
    in the template, the formulas for any two rows are byte-identical
    everywhere except the row-number digits at that marker. -/
theorem claim4_row_rewrite (base rc : List Char)
    (h1 : countOccs ('=' :: rc) base = 1) :
    ∃ pre post, base = pre ++ ('=' :: rc) ++ post ∧
      ∀ row, fillRowValue base rc row =
        (pre ++ ('=' :: rc.dropLast)) ++ natStr row ++ post := by
  obtain ⟨pre, post, hs, hrep⟩ := replaceAllGo_one_occ ('=' :: rc) [] (by simp)
    base.length base (Nat.le_refl _) (by simpa [countOccs] using h1)
  refine ⟨pre, post, hs, fun row => ?_⟩
  unfold fillRowValue replaceAll
  rw [hrep ('=' :: (rc.dropLast ++ natStr row))]
  simp [List.append_assoc]

/-- Witness for C4 at a template holding the marker once. -/
theorem claim4_row_rewrite_witness :
    countOccs ('=' :: lit "A2") (lit "INDEX(R,=A2,3)") = 1 ∧
    (∃ pre post, lit "INDEX(R,=A2,3)" = pre ++ ('=' :: lit "A2") ++ post ∧
      ∀ row, fillRowValue (lit "INDEX(R,=A2,3)") (lit "A2") row =
        (pre ++ ('=' :: (lit "A2").dropLast)) ++ natStr row ++ post) :=
  ⟨by decide, claim4_row_rewrite (lit "INDEX(R,=A2,3)") (lit "A2") (by decide)⟩

theorem processCols_empty_funcs (c : CommonCfg) (env : Env) (tir : Bool) (sk : String)
    (sv : AliasVal) (sn : String) (f : SrcFile) (hf : c.funcs = []) :
    ∀ (cols : List (String × AliasVal)) (ls : LoopSt),
      processCols c env tir sk sv sn f cols ls = Except.ok ls := by
  intro cols
  induction cols with
  | nil => intro ls; rfl
  | cons kv rest ih =>
      obtain ⟨colKey, colValue⟩ := kv
      intro ls
      simp only [processCols, hf, alistGet]
      exact ih ls

theorem processSheets_empty_funcs (c : CommonCfg) (env : Env) (tir : Bool) (f : SrcFile)
    (colAliases : List (String × AliasVal)) (hf : c.funcs = []) :
    ∀ (sheets : List (String × AliasVal)) (ls : LoopSt), ls.wb ≠ [] →
      ∃ wb1, processSheets c env tir f colAliases sheets ls =
        Except.ok { wb := wb1, st := ls.st, dc := ls.dc } := by
  intro sheets
  induction sheets with
  | nil =>
      intro ls hne
      exact ⟨ls.wb, rfl⟩
  | cons kv rest ih =>
      obtain ⟨sheetKey, sheetValue⟩ := kv
      intro ls hne
      simp only [processSheets]
      cases hpres : alistGet ls.wb ((alistGet c.name_aliases sheetKey).getD sheetKey) with
      | some ws =>
          simp only [hpres]
          rw [processCols_empty_funcs c env tir sheetKey sheetValue _ f hf colAliases]
          exact ih { ls with wb := ls.wb } hne
      | none =>
          cases hwb : ls.wb with
          | nil => exact absurd hwb hne
          | cons hd tl =>
              obtain ⟨n0, base⟩ := hd
              simp only [hpres, hwb]
              rw [processCols_empty_funcs c env tir sheetKey sheetValue _ f hf colAliases]
              exact ih { ls with wb := (n0, base) :: tl ++
                [((alistGet c.name_aliases sheetKey).getD sheetKey, base)] } (by simp)

/-- Claim C8: a classification key with no entry in `common["funcs"]` is
    silently skipped: a successful per-file run never records a written
    column whose handler key is such a key; and when no key has a handler
    the run completes with no error, no written column and an unchanged
    processor state. -/
theorem claim8_unhandled_key_skipped :
    (∀ (c : CommonCfg) (env : Env) (wb : Workbook) (st : ProcState) (f : SrcFile)
      (ls1 : LoopSt) (key : String),
      processDataForYear c env wb st f = Except.ok ls1 →
      key ∉ c.funcs.map Prod.fst →
      ∀ r ∈ ls1.st.trace, r ∈ st.trace ∨ r.listKey ≠ key) ∧
    (∀ (c : CommonCfg) (env : Env) (wb : Workbook) (st : ProcState) (f : SrcFile),
      c.funcs = [] → wb ≠ [] →
      (axisOf c c.to_list).isSome →
      (axisOf c (c.to_col.getD (if c.to_list = "rows_aliases" then "list_aliases"
        else "rows_aliases"))).isSome →
      ∃ wb1, processDataForYear c env wb st f =
        Except.ok { wb := wb1, st := st, dc := [] }) := by
  constructor
  · intro c env wb st f ls1 key hok hkey r hr
    rcases (processDataForYear_inv c env wb st f ls1 hok).1 r hr with hin | hmem
    · exact Or.inl hin
    · exact Or.inr (fun he => hkey (he ▸ hmem))
  · intro c env wb st f hf hwb h1 h2
    simp only [processDataForYear]
    cases hx1 : axisOf c c.to_list with
    | none => rw [hx1] at h1; cases h1
    | some listAliases =>
        cases hx2 : axisOf c (c.to_col.getD (if c.to_list = "rows_aliases" then
            "list_aliases" else "rows_aliases")) with
        | none => rw [hx2] at h2; cases h2
        | some colAliases =>
            exact processSheets_empty_funcs c env _ f colAliases hf listAliases
              { wb := wb, st := st, dc := [] } hwb

/-- A configuration with classification keys but an empty handler table. -/
def cfgNoFuncs : CommonCfg where
  to_list := "list_aliases"
  to_col := none
  name_aliases := []
  rows_aliases := [("c1", AliasVal.int 1)]
  rows_column := lit "B"
  list_aliases := [("k1", AliasVal.str "S1")]
  funcs := []
  error_handle := none
  checking_list_existence := false
  summary_sheet := []

/-- A one-sheet template workbook for concrete runs. -/
def wbTemplate : Workbook :=
  [("шаблон", { row1 := [(1, lit "x")], cells := [], maxRow := 2 })]

/-- A concrete located source file. -/
def srcF : SrcFile where
  absDir := lit "D:"
  filename := lit "f.xlsx"

/-- Witness for C8: a configuration whose handler table is empty yields a
    normal run with no written columns. -/
theorem claim8_unhandled_key_skipped_witness :
    ∃ wb1, processDataForYear cfgNoFuncs envTrivial wbTemplate stInit srcF =
      Except.ok { wb := wb1, st := stInit, dc := [] } :=
  claim8_unhandled_key_skipped.2 cfgNoFuncs envTrivial wbTemplate stInit srcF rfl
    (by simp [wbTemplate]) (by decide) (by decide)

/-- Claim C9 (amended): `first_col_after_template` is recorded once per
    processor instance — at the first writer invocation ever, whatever sheet
    or period that is — and is never updated afterwards; the recorded single
    letter is the scan lower bound the aggregation compiler uses for every
    sheet. -/
theorem claim9_first_col_recorded_once :
    (∀ (c : CommonCfg) (st : ProcState) (ws : WSheet) (g : GenOut)
      (se : List Char → List Char → Bool) (l : String),
      st.firstCol = some l → (fillSheet c st ws g se).1.firstCol = some l) ∧
    (∀ (c : CommonCfg) (st : ProcState) (ws : WSheet) (g : GenOut)
      (se : List Char → List Char → Bool),
      st.firstCol = none →
      (fillSheet c st ws g se).1.firstCol = some (colLetter (firstEmptyCol ws.row1))) ∧
    (∀ (c : CommonCfg) (env : Env) (wb : Workbook) (st : ProcState) (f : SrcFile)
      (ls1 : LoopSt) (l : String),
      processDataForYear c env wb st f = Except.ok ls1 →
      st.firstCol = some l → ls1.st.firstCol = some l) := by
  refine ⟨?_, ?_, ?_⟩
  · intro c st ws g se l hl
    exact (fillSheet_fst_trace c st ws g se).2.2 l hl
  · intro c st ws g se hn
    rw [fillSheet_fst, hn]
  · intro c env wb st f ls1 l hok hl
    exact (processDataForYear_inv c env wb st f ls1 hok).2 l hl

/-- Sheet A of the C9 scenario: a template part in columns 1–2. -/
def wsA_C9 : WSheet where
  row1 := [(1, lit "h1"), (2, lit "h2")]
  cells := []
  maxRow := 3

/-- Sheet B of the C9 scenario: a template part in columns 1–4. -/
def wsB_C9 : WSheet where
  row1 := [(1, lit "b1"), (2, lit "b2"), (3, lit "tmplX"), (4, lit "tmplY")]
  cells := []
  maxRow := 3

/-- The C9 configuration: two output sheets A and B. -/
def cfgC9 : CommonCfg where
  to_list := "list_aliases"
  to_col := none
  name_aliases := [("a", "A"), ("b", "B")]
  rows_aliases := []
  rows_column := lit "B"
  list_aliases := []
  funcs := []
  error_handle := none
  checking_list_existence := false
  summary_sheet := []

/-- A compiled formula for an absent sheet (every row gets `"=NA()"`). -/
def goutA_C9 : GenOut where
  formula := lit "=NA()"
  sheet_exist := false
  row_condition := none
  sheet_col_name := lit "colA"
  path_source_file := lit "D:\x5cf.xlsx"
  sheet_name := lit "None"

def goutB_C9 : GenOut where
  formula := lit "=NA()"
  sheet_exist := false
  row_condition := none
  sheet_col_name := lit "colB"
  path_source_file := lit "D:\x5cf.xlsx"
  sheet_name := lit "None"

/-- State and sheets after the first writer invocation (on sheet A). -/
def fillA_C9 : ProcState × WSheet × Except (List Char) String :=
  fillSheet cfgC9 stInit wsA_C9 goutA_C9 (fun _ _ => false)

/-- State and sheets after the second writer invocation (on sheet B). -/
def fillB_C9 : ProcState × WSheet × Except (List Char) String :=
  fillSheet cfgC9 fillA_C9.1 wsB_C9 goutB_C9 (fun _ _ => false)

/-- The workbook after both invocations. -/
def wbC9 : Workbook := [("A", fillA_C9.2.1), ("B", fillB_C9.2.1)]

/-- C9 counterexample: sheet B's first writer invocation starts at column 5
    (`"E"`), yet the recorded attribute still holds `"C"` (sheet A's start),
    and the header collection scans sheet B from that global column `"C"`,
    picking up B's template headers in columns 3–4 — it differs from the
    per-sheet scan the claim describes. -/
theorem claim9_counterexample :
    fillA_C9.1.firstCol = some "C" ∧
    firstEmptyCol wsB_C9.row1 = 5 ∧
    fillB_C9.1.firstCol = some "C" ∧
    collectHeaders cfgC9 wbC9 "C" =
      [lit "colA", lit "tmplX", lit "tmplY", lit "colB"] ∧
    collectHeadersSpec cfgC9 wbC9
      (fun sn => if sn = "A" then some 3 else if sn = "B" then some 5 else none) =
      [lit "colA", lit "colB"] ∧
    collectHeaders cfgC9 wbC9 "C" ≠
      collectHeadersSpec cfgC9 wbC9
        (fun sn => if sn = "A" then some 3 else if sn = "B" then some 5 else none) := by
  refine ⟨by decide, by decide, by decide, by decide, by decide, by decide⟩

/-- Witness for C9: a recorded column is never re-recorded. -/
theorem claim9_first_col_recorded_once_witness :
    (fillSheet cfgC9 { firstCol := some "B", log := [], trace := [] } wsA_C9 goutA_C9
      (fun _ _ => false)).1.firstCol = some "B" :=
  claim9_first_col_recorded_once.1 cfgC9
    { firstCol := some "B", log := [], trace := [] } wsA_C9 goutA_C9
    (fun _ _ => false) "B" rfl

/-- Modelled from the spec (§4.3 step 6): the two-nested-wrapper
    error-substitution shape of earlier generations — `IFNA` inside
    `IFERROR`, distinguishing "value not available" from generic errors. -/
def twoWrapperNested (inner na err : List Char) : List Char :=
  lit "IFERROR(IFNA(" ++ inner ++ lit ", " ++ na ++ lit "), " ++ err ++ lit ")"

/-- Modelled from the spec (§4.3 step 6): the same policy with the wrappers
    in the opposite nesting order. -/
def twoWrapperNestedB (inner err na : List Char) : List Char :=
  lit "IFNA(IFERROR(" ++ inner ++ lit ", " ++ err ++ lit "), " ++ na ++ lit ")"

theorem generateFormulas_formula (c : CommonCfg) (dir fn sn scn : List Char)
    (p : FuncParams) (code : AliasVal) (arr : List Char) (sr : Int) (c0 c1 : List Char)
    (er : Int) (hn : sn ≠ lit "None") (ha : p.array = some arr)
    (hb : parseArrayBounds arr = some (sr, c0, c1, er)) :
    generateFormulas c dir fn sn scn p code = Except.ok
      { formula := lit "=" ++ nanErrorHandle c.error_handle
          (indexExpr (fullRefOf dir fn sn) arr
            (aggregatePart (absRange (fullRefOf dir fn sn) p.row_num.looup_array sr er)
              (absRange (fullRefOf dir fn sn) c.rows_column sr er)
              p.row_num.lookup_value (render code) sr)
            (colMatchExpr p.columns_num.lookup_value
              (headerRange (fullRefOf dir fn sn) c0 c1 sr) p.columns_num.match_type))
          true (lit "0"),
        sheet_exist := true, row_condition := some p.row_num.lookup_value,
        sheet_col_name := scn, path_source_file := dir ++ lit "\x5c" ++ fn,
        sheet_name := sn } := by
  unfold generateFormulas
  rw [if_neg hn]
  simp only [ha, hb]

theorem listNe_of_getElem_ne {α : Type} (l1 l2 : List α) (n : Nat)
    (h : l1[n]? ≠ l2[n]?) : l1 ≠ l2 := fun he => h (he ▸ rfl)

theorem singleWrapper_ne_nested (eh : Option (List Char)) (rest inner na err : List Char) :
    lit "=" ++ nanErrorHandle eh (lit "INDEX(" ++ rest) true (lit "0") ≠
      lit "=" ++ twoWrapperNested inner na err ∧
    lit "=" ++ nanErrorHandle eh (lit "INDEX(" ++ rest) true (lit "0") ≠
      lit "=" ++ twoWrapperNestedB inner err na := by
  have hsh : ∀ repl : List Char,
      lit "=" ++ (lit "IFERROR(" ++ (lit "INDEX(" ++ rest) ++ lit ", " ++ repl ++ lit ")") =
      ((lit "=" ++ lit "IFERROR(") ++ lit "INDEX(") ++
        (rest ++ (lit ", " ++ (repl ++ lit ")"))) := by
    intro repl
    simp [List.append_assoc]
  have hlhs : ∀ repl : List Char,
      (lit "=" ++ (lit "IFERROR(" ++ (lit "INDEX(" ++ rest) ++ lit ", " ++ repl ++
        lit ")"))[10]? = some 'N' ∧
      (lit "=" ++ (lit "IFERROR(" ++ (lit "INDEX(" ++ rest) ++ lit ", " ++ repl ++
        lit ")"))[3]? = some 'E' := by
    intro repl
    rw [hsh repl]
    constructor
    · rw [List.getElem?_append_left (by decide)]
      decide
    · rw [List.getElem?_append_left (by decide)]
      decide
  have hrhsA : (lit "=" ++ twoWrapperNested inner na err)[10]? = some 'F' := by
    have : lit "=" ++ twoWrapperNested inner na err =
        (lit "=" ++ lit "IFERROR(IFNA(") ++
          (inner ++ (lit ", " ++ (na ++ (lit "), " ++ (err ++ lit ")"))))) := by
      simp [twoWrapperNested, List.append_assoc]
    rw [this, List.getElem?_append_left (by decide)]
    decide
  have hrhsB : (lit "=" ++ twoWrapperNestedB inner err na)[3]? = some 'N' := by
    have : lit "=" ++ twoWrapperNestedB inner err na =
        (lit "=" ++ lit "IFNA(IFERROR(") ++
          (inner ++ (lit ", " ++ (err ++ (lit "), " ++ (na ++ lit ")"))))) := by
      simp [twoWrapperNestedB, List.append_assoc]
    rw [this, List.getElem?_append_left (by decide)]
    decide
  have hfe : lit "=" ++ nanErrorHandle eh (lit "INDEX(" ++ rest) true (lit "0") =
      lit "=" ++ (lit "IFERROR(" ++ (lit "INDEX(" ++ rest) ++ lit ", " ++
        eh.getD (lit "0") ++ lit ")") := by
    cases eh <;> rfl
  constructor
  · apply listNe_of_getElem_ne _ _ 10
    rw [hfe, (hlhs (eh.getD (lit "0"))).1, hrhsA]
    decide
  · apply listNe_of_getElem_ne _ _ 3
    rw [hfe, (hlhs (eh.getD (lit "0"))).2, hrhsB]
    decide
/-- Claim C5 (amended): `_nan_error_handle_` implements only the
    single-wrapper policy — one `IFERROR` whose fallback literal is
    configurable through `common["error_handle"]` (default `0`) — every
    compiled formula has exactly that shape, and no configuration of the
    error-handle produces the two-nested-wrapper shape of the earlier
    generation. -/
theorem claim5_single_wrapper_only :
    (∀ (eh : Option (List Char)) (f0 : List Char),
      nanErrorHandle eh f0 true (lit "0") =
        lit "IFERROR(" ++ f0 ++ lit ", " ++ eh.getD (lit "0") ++ lit ")") ∧
    (∀ (c : CommonCfg) (dir fn sn scn : List Char) (p : FuncParams) (code : AliasVal)
      (arr : List Char) (sr : Int) (c0 c1 : List Char) (er : Int),
      sn ≠ lit "None" → p.array = some arr →
      parseArrayBounds arr = some (sr, c0, c1, er) →
      ∃ g rest, generateFormulas c dir fn sn scn p code = Except.ok g ∧
        g.formula = lit "=" ++ nanErrorHandle c.error_handle (lit "INDEX(" ++ rest)
          true (lit "0")) ∧
    (∀ (eh : Option (List Char)) (rest inner na err : List Char),
      lit "=" ++ nanErrorHandle eh (lit "INDEX(" ++ rest) true (lit "0") ≠
        lit "=" ++ twoWrapperNested inner na err ∧
      lit "=" ++ nanErrorHandle eh (lit "INDEX(" ++ rest) true (lit "0") ≠
        lit "=" ++ twoWrapperNestedB inner err na) := by
  refine ⟨?_, ?_, singleWrapper_ne_nested⟩
  · intro eh f0
    cases eh <;> rfl
  · intro c dir fn sn scn p code arr sr c0 c1 er hn ha hb
    have hidx : indexExpr (fullRefOf dir fn sn) arr
        (aggregatePart (absRange (fullRefOf dir fn sn) p.row_num.looup_array sr er)
          (absRange (fullRefOf dir fn sn) c.rows_column sr er)
          p.row_num.lookup_value (render code) sr)
        (colMatchExpr p.columns_num.lookup_value
          (headerRange (fullRefOf dir fn sn) c0 c1 sr) p.columns_num.match_type) =
        lit "INDEX(" ++ (fullRefOf dir fn sn ++ (arr ++ (lit "," ++
          (aggregatePart (absRange (fullRefOf dir fn sn) p.row_num.looup_array sr er)
            (absRange (fullRefOf dir fn sn) c.rows_column sr er)
            p.row_num.lookup_value (render code) sr ++ (lit "," ++
          (colMatchExpr p.columns_num.lookup_value
            (headerRange (fullRefOf dir fn sn) c0 c1 sr) p.columns_num.match_type ++
            lit ")")))))) := by
      simp [indexExpr, List.append_assoc]
    refine ⟨_, fullRefOf dir fn sn ++ (arr ++ (lit "," ++
          (aggregatePart (absRange (fullRefOf dir fn sn) p.row_num.looup_array sr er)
            (absRange (fullRefOf dir fn sn) c.rows_column sr er)
            p.row_num.lookup_value (render code) sr ++ (lit "," ++
          (colMatchExpr p.columns_num.lookup_value
            (headerRange (fullRefOf dir fn sn) c0 c1 sr) p.columns_num.match_type ++
            lit ")"))))),
      generateFormulas_formula c dir fn sn scn p code arr sr c0 c1 er hn ha hb, ?_⟩
    show lit "=" ++ nanErrorHandle c.error_handle (indexExpr (fullRefOf dir fn sn) arr
        (aggregatePart (absRange (fullRefOf dir fn sn) p.row_num.looup_array sr er)
          (absRange (fullRefOf dir fn sn) c.rows_column sr er)
          p.row_num.lookup_value (render code) sr)
        (colMatchExpr p.columns_num.lookup_value
          (headerRange (fullRefOf dir fn sn) c0 c1 sr) p.columns_num.match_type))
        true (lit "0") = _
    rw [hidx]

/-- The handler used by the concrete C5 and C1 runs. -/
def pC5 : FuncParams where
  array := some (lit "$A$12:$W$467")
  row_num := { looup_array := lit "D", lookup_value := lit "A2" }
  columns_num := { lookup_value := lit "2", match_type := lit "0" }
  actual_name := none

/-- The configuration of the concrete C5 run, with a configurable
    error-handle slot. -/
def cfgC5 (eh : Option (List Char)) : CommonCfg where
  to_list := "list_aliases"
  to_col := none
  name_aliases := []
  rows_aliases := []
  rows_column := lit "B"
  list_aliases := []
  funcs := [("k1", pC5)]
  error_handle := eh
  checking_list_existence := false
  summary_sheet := []

/-- C5 counterexample: no choice of the `error_handle` configuration makes
    the compiler emit the two-nested-wrapper form for this concrete handler —
    the output is always the single `IFERROR` wrapper. -/
theorem claim5_counterexample :
    ¬ ∃ (eh : Option (List Char)) (inner na err : List Char),
      (generateFormulas (cfgC5 eh) (lit "D:") (lit "f.xlsx") (lit "S1") (lit "f_c1")
          pC5 (AliasVal.int 1)).toOption.map GenOut.formula =
        some (lit "=" ++ twoWrapperNested inner na err) ∨
      (generateFormulas (cfgC5 eh) (lit "D:") (lit "f.xlsx") (lit "S1") (lit "f_c1")
          pC5 (AliasVal.int 1)).toOption.map GenOut.formula =
        some (lit "=" ++ twoWrapperNestedB inner err na) := by
  rintro ⟨eh, inner, na, err, hcase⟩
  have hgen := generateFormulas_formula (cfgC5 eh) (lit "D:") (lit "f.xlsx") (lit "S1")
    (lit "f_c1") pC5 (AliasVal.int 1) (lit "$A$12:$W$467") 12 (lit "A") (lit "W") 467
    (by decide) rfl (by decide)
  rw [hgen] at hcase
  have hidx : indexExpr (fullRefOf (lit "D:") (lit "f.xlsx") (lit "S1"))
      (lit "$A$12:$W$467")
      (aggregatePart (absRange (fullRefOf (lit "D:") (lit "f.xlsx") (lit "S1"))
          pC5.row_num.looup_array 12 467)
        (absRange (fullRefOf (lit "D:") (lit "f.xlsx") (lit "S1"))
          (cfgC5 eh).rows_column 12 467)
        pC5.row_num.lookup_value (render (AliasVal.int 1)) 12)
      (colMatchExpr pC5.columns_num.lookup_value
        (headerRange (fullRefOf (lit "D:") (lit "f.xlsx") (lit "S1")) (lit "A")
          (lit "W") 12) pC5.columns_num.match_type) =
      lit "INDEX(" ++ (fullRefOf (lit "D:") (lit "f.xlsx") (lit "S1")

        ++ (lit "$A$12:$W$467" ++ (lit "," ++
          (aggregatePart (absRange (fullRefOf (lit "D:") (lit "f.xlsx") (lit "S1"))
              pC5.row_num.looup_array 12 467)
            (absRange (fullRefOf (lit "D:") (lit "f.xlsx") (lit "S1"))
              (cfgC5 eh).rows_column 12 467)
            pC5.row_num.lookup_value (render (AliasVal.int 1)) 12 ++ (lit "," ++
          (colMatchExpr pC5.columns_num.lookup_value
            (headerRange (fullRefOf (lit "D:") (lit "f.xlsx") (lit "S1")) (lit "A")
              (lit "W") 12) pC5.columns_num.match_type ++ lit ")")))))) := by
    simp [indexExpr, List.append_assoc]
  rw [hidx] at hcase
  simp only [Except.toOption, Option.map, Option.some.injEq] at hcase
  rcases hcase with hcase | hcase
  · exact (singleWrapper_ne_nested eh _ inner na err).1 hcase
  · exact (singleWrapper_ne_nested eh _ inner na err).2 hcase

/-- Witness for C5 at the concrete handler. -/
theorem claim5_single_wrapper_only_witness :
    ∃ g rest, generateFormulas (cfgC5 none) (lit "D:") (lit "f.xlsx") (lit "S1")
        (lit "f_c1") pC5 (AliasVal.int 1) = Except.ok g ∧
      g.formula = lit "=" ++ nanErrorHandle (cfgC5 none).error_handle
        (lit "INDEX(" ++ rest) true (lit "0") :=
  claim5_single_wrapper_only.2.1 (cfgC5 none) (lit "D:") (lit "f.xlsx") (lit "S1")
    (lit "f_c1") pC5 (AliasVal.int 1) (lit "$A$12:$W$467") 12 (lit "A") (lit "W") 467
    (by decide) rfl (by decide)

/-- Claim C1: every compiled formula embeds the row-locating sub-expression
    `SUMPRODUCT(MAX((key=value)*(class=code)*ROW(key)))-(startRow-1)` built
    from its range, and that expression selects, among the rows whose key
    equals the lookup value and whose classification column equals the level
    code, the one with the largest row index (last match wins). -/
theorem claim1_last_match_wins :
    (∀ (c : CommonCfg) (dir fn sn scn : List Char) (p : FuncParams) (code : AliasVal)
      (arr : List Char) (sr : Int) (c0 c1 : List Char) (er : Int),
      sn ≠ lit "None" → p.array = some arr →
      parseArrayBounds arr = some (sr, c0, c1, er) →
      ∃ g pre post, generateFormulas c dir fn sn scn p code = Except.ok g ∧
        g.formula = pre ++
          aggregatePart (absRange (fullRefOf dir fn sn) p.row_num.looup_array sr er)
            (absRange (fullRefOf dir fn sn) c.rows_column sr er)
            p.row_num.lookup_value (render code) sr ++ post) ∧
    (∀ (v cde : Int) (keys edus : List Int) (sr j : Nat),
      j < keys.length → matchAt keys edus v cde j →
      (∀ i, i < keys.length → matchAt keys edus v cde i → i ≤ j) →
      evalRowLocatorMax sr keys edus v cde = sr + j) := by
  constructor
  · intro c dir fn sn scn p code arr sr c0 c1 er hn ha hb
    refine ⟨_,
      lit "=" ++ (lit "IFERROR(" ++ (lit "INDEX(" ++ (fullRefOf dir fn sn ++
        (arr ++ lit ",")))),
      lit "," ++ (colMatchExpr p.columns_num.lookup_value
        (headerRange (fullRefOf dir fn sn) c0 c1 sr) p.columns_num.match_type ++
        (lit ")" ++ (lit ", " ++ (c.error_handle.getD (lit "0") ++ lit ")")))),
      generateFormulas_formula c dir fn sn scn p code arr sr c0 c1 er hn ha hb, ?_⟩
    show lit "=" ++ nanErrorHandle c.error_handle (indexExpr (fullRefOf dir fn sn) arr
        (aggregatePart (absRange (fullRefOf dir fn sn) p.row_num.looup_array sr er)
          (absRange (fullRefOf dir fn sn) c.rows_column sr er)
          p.row_num.lookup_value (render code) sr)
        (colMatchExpr p.columns_num.lookup_value
          (headerRange (fullRefOf dir fn sn) c0 c1 sr) p.columns_num.match_type))
        true (lit "0") = _
    have hfe : ∀ X : List Char, nanErrorHandle c.error_handle X true (lit "0") =
        lit "IFERROR(" ++ X ++ lit ", " ++ c.error_handle.getD (lit "0") ++ lit ")" := by
      intro X
      cases hc : c.error_handle <;> simp [nanErrorHandle, hc]
    rw [hfe]
    simp [indexExpr, List.append_assoc]
  · intro v cde keys edus sr j hj hm hmax
    exact evalRowLocatorMax_last_match v cde keys edus sr j hj hm hmax

/-- The key column of the C1 witness range (rows 12–45): the lookup value 1
    appears at absolute rows 20 and 45. -/
def keysC1 : List Int := (List.range 34).map (fun i => if i = 8 ∨ i = 33 then 1 else 0)

/-- The classification column of the C1 witness range: code 2 everywhere. -/
def edusC1 : List Int := List.replicate 34 2

/-- Witness for C1: with duplicate key+code matches at absolute rows 20 and
    45 of a range starting at row 12, the row locator resolves to row 45,
    not row 20; and a concrete compilation embeds the sub-expression. -/
theorem claim1_last_match_wins_witness :
    (evalRowLocatorMax 12 keysC1 edusC1 1 2 = 45 ∧ (45 : Nat) ≠ 20) ∧
    (∃ g pre post, generateFormulas (cfgC5 none) (lit "D:") (lit "f.xlsx") (lit "S1")
        (lit "f_c1") pC5 (AliasVal.int 1) = Except.ok g ∧
      g.formula = pre ++
        aggregatePart (absRange (fullRefOf (lit "D:") (lit "f.xlsx") (lit "S1"))
            pC5.row_num.looup_array 12 467)
          (absRange (fullRefOf (lit "D:") (lit "f.xlsx") (lit "S1"))
            (cfgC5 none).rows_column 12 467)
          pC5.row_num.lookup_value (render (AliasVal.int 1)) 12 ++ post) :=
  ⟨⟨claim1_last_match_wins.2 1 2 keysC1 edusC1 12 33 (by decide) (by decide)
      (by decide), by decide⟩,
    claim1_last_match_wins.1 (cfgC5 none) (lit "D:") (lit "f.xlsx") (lit "S1")
      (lit "f_c1") pC5 (AliasVal.int 1) (lit "$A$12:$W$467") 12 (lit "A") (lit "W") 467
      (by decide) rfl (by decide)⟩

/-- A handler whose required `"array"` range parameter is absent
    (the spec's MissingRangeSpec condition). -/
def pBadC6 : FuncParams where
  array := none
  row_num := { looup_array := lit "D", lookup_value := lit "A2" }
  columns_num := { lookup_value := lit "2", match_type := lit "0" }
  actual_name := none

/-- A configuration whose single handler lacks its range parameters. -/
def cfgBadC6 : CommonCfg where
  to_list := "list_aliases"
  to_col := none
  name_aliases := [("sheetA", "ListA")]
  rows_aliases := [("c1", AliasVal.int 1)]
  rows_column := lit "B"
  list_aliases := [("sheetA", AliasVal.str "S1")]
  funcs := [("sheetA", pBadC6)]
  error_handle := none
  checking_list_existence := false
  summary_sheet := []

/-- An environment delivering one source file and a loadable template. -/
def envC6 : Env where
  templateLoad := Except.ok wbTemplate
  filesFor := fun _ => [srcF]
  sheetExists := fun _ _ => true
  saveOk := fun _ => true

/-- C6 counterexample: a handler lacking its `"array"` range parameters
    fails during formula *generation*; that failure is not caught by the
    per-file handler and the whole run aborts — the claim's
    "caught, logged, and processing continues" does not hold for it. -/
theorem claim6_counterexample :
    processYears [("2020", cfgBadC6)] envC6 stInit (Selected.str "2020") =
      Except.error (lit "KeyError: array") := by
  rfl

/-- A well-formed handler whose range parses. -/
def pGoodC6 : FuncParams where
  array := some (lit "$A$2:$C$5")
  row_num := { looup_array := lit "A", lookup_value := lit "A2" }
  columns_num := { lookup_value := lit "2", match_type := lit "0" }
  actual_name := none

/-- A configuration whose first classification value routes to a source
    sheet declared "None" while the pandas existence probe reports the sheet
    present, so its fill raises (missing `row_condition`) and is caught;
    the second value fills normally. -/
def cfgContC6 : CommonCfg where
  to_list := "list_aliases"
  to_col := none
  name_aliases := []
  rows_aliases := [("c1", AliasVal.int 1)]
  rows_column := lit "B"
  list_aliases := [("k1", AliasVal.str "None"), ("k2", AliasVal.str "S")]
  funcs := [("k1", pGoodC6), ("k2", pGoodC6)]
  error_handle := none
  checking_list_existence := true
  summary_sheet := []

def envContC6 : Env where
  templateLoad := Except.ok wbTemplate
  filesFor := fun _ => [srcF]
  sheetExists := fun _ _ => true
  saveOk := fun _ => true

/-- An environment whose save always fails. -/
def envNoSave : Env where
  templateLoad := Except.ok wbTemplate
  filesFor := fun _ => []
  sheetExists := fun _ _ => true
  saveOk := fun _ => false

/-- Claim C6 (amended): within one period, failures while *filling* a
    column are caught and logged and processing continues with the remaining
    classification values and files (a run over well-formed handlers always
    completes, and a concrete caught fill failure leaves its log entry while
    the next classification value is still written); failures while
    *generating* a formula — such as a missing range parameter — and
    period-level failures (template load, workbook save) abort the run. -/
theorem claim6_failure_isolation :
    (∀ (c : CommonCfg) (env : Env) (wb : Workbook) (st : ProcState) (f : SrcFile),
      GenOkB c = true → wb ≠ [] →
      (axisOf c c.to_list).isSome →
      (axisOf c (c.to_col.getD (if c.to_list = "rows_aliases" then "list_aliases"
        else "rows_aliases"))).isSome →
      ∃ ls1, processDataForYear c env wb st f = Except.ok ls1) ∧
    (∀ (years : List (String × CommonCfg)) (env : Env) (st : ProcState) (sel : Selected)
      (y : String) (ys : List String) (e : List Char) (cY : CommonCfg),
      getYearsToProcess years sel = y :: ys → alistGet years y = some cY →
      env.templateLoad = Except.error e →
      processYears years env st sel = Except.error e) ∧
    ((processDataForYear cfgContC6 envContC6 wbTemplate stInit srcF).map
      (fun ls => (ls.st.log, ls.st.trace)) =
      Except.ok ([("k1", "c1")],
        [{ sheet := "k2", listKey := "k2", colKey := "c1", col := "B" }])) ∧
    (processYears [("y", cfgTrivial)] envNoSave stInit (Selected.str "y") =
      Except.error (lit "save failed")) := by
  refine ⟨?_, ?_, by rfl, by rfl⟩
  · intro c env wb st f hall hwb h1 h2
    exact processDataForYear_total c env wb st f hall hwb ⟨h1, h2⟩
  · intro years env st sel y ys e cY hg hcy htl
    unfold processYears
    rw [hg]
    simp only [processYearsGo, hcy, htl]

/-- Witness for C6: a run over well-formed handlers completes even though
    its first fill fails. -/
theorem claim6_failure_isolation_witness :
    ∃ ls1, processDataForYear cfgContC6 envContC6 wbTemplate stInit srcF =
      Except.ok ls1 :=
  claim6_failure_isolation.1 cfgContC6 envContC6 wbTemplate stInit srcF (by decide)
    (by simp [wbTemplate]) (by decide) (by decide)
